import Mathlib

/-!
Verification development for the Sherlock image-knowledge ingestion backend.

The definitions below are a shallow embedding of the backend's Python sources:
  * `backend/db/repositories/config_repo.py`   (taxonomy merge)
  * `backend/db/repositories/knowledge_repo.py` (record store operations)
  * `backend/services/ingestion_service.py`     (pipeline orchestrator)
  * `backend/utils/retry_utils.py`              (retry wrapper)
  * `backend/services/embedding_service.py` / `llm_service.py` (error mapping,
    response parsing and normalization)
  * `backend/utils/image_utils.py`              (image magic-number validation)

External collaborators (HTTP, the vision model, the embedding provider, and
Python's `json.loads`) are modelled as oracle parameters; everything the
repository itself computes is embedded as executable Lean functions.
String operations model Python `str.strip` / `str.lower` / `str.title`
on the ASCII fragment the application exercises.
-/

namespace Sherlock

/-! ### Python string primitives (ASCII fragment) -/

/-- Python `str.lower()` (ASCII): lowercase every character. -/
def pyLower (s : String) : String := ⟨s.data.map Char.toLower⟩

/-- Core loop of Python `str.title()` (ASCII): the boolean tracks whether the
previous character was cased; the first cased character of every cased run is
uppercased and the rest of the run is lowercased. -/
def titleGo : Bool → List Char → List Char
  | _, [] => []
  | prevCased, c :: cs =>
    let c2 := if c.isAlpha then (if prevCased then c.toLower else c.toUpper) else c
    c2 :: titleGo c.isAlpha cs

/-- Python `str.title()` (ASCII). -/
def pyTitle (s : String) : String := ⟨titleGo false s.data⟩

/-- Whitespace characters stripped by Python `str.strip()` (ASCII fragment). -/
def isPySpace (c : Char) : Bool :=
  c == ' ' || c == '\t' || c == '\n' || c == '\r' || c == '\x0b' || c == '\x0c'

/-- Python `str.strip()`: drop whitespace from both ends. -/
def pyStrip (s : String) : String :=
  ⟨((s.data.dropWhile isPySpace).reverse.dropWhile isPySpace).reverse⟩

/-! ### Taxonomy configuration (`backend/db/models/config.py`) -/

/-- Subcategory with its topic list (`SubcategoryConfig`). -/
structure SubcategoryConfig where
  name : String
  topics : List String
deriving Repr, DecidableEq

/-- Category with its subcategories (`CategoryConfig`). -/
structure CategoryConfig where
  name : String
  subcategories : List SubcategoryConfig
deriving Repr, DecidableEq

/-- The whole taxonomy blob (`TagsConfig`). -/
structure TagsConfig where
  categories : List CategoryConfig
deriving Repr, DecidableEq

/-- Replace the first element satisfying `p` by its image under `f`
(Python mutates the object returned by `next(...)` in place; the element
found is the first match, so the update rewrites exactly that position). -/
def updateFirst {α : Type} (p : α → Bool) (f : α → α) : List α → List α
  | [] => []
  | x :: xs => if p x then f x :: xs else x :: updateFirst p f xs

/-- Python `list.insert(list.index(x), t)`: insert `t` immediately before the
first occurrence of `x` (only used when `x` is present). -/
def insertBefore (x t : String) : List String → List String
  | [] => []
  | y :: ys => if y = x then t :: y :: ys else y :: insertBefore x t ys

/-- Topic list for a freshly created subcategory:
`[topic, "other"]`, or just `["other"]` when the topic normalizes to `"other"`. -/
def freshTopics (ntop : String) : List String :=
  if ntop != "other" then [ntop, "other"] else ["other"]

/-- Python `category.subcategories.append(SubcategoryConfig(name, topics))`
applied to the found category. -/
def appendSub (nsub ntop : String) (cc : CategoryConfig) : CategoryConfig :=
  { cc with subcategories := cc.subcategories ++ [⟨nsub, freshTopics ntop⟩] }

/-- Python in-place update of the found subcategory's `topics` list. -/
def setTopics (nsub : String) (newTopics : List String)
    (cc : CategoryConfig) : CategoryConfig :=
  { cc with
      subcategories := updateFirst
        (fun ss => pyLower ss.name == pyLower nsub)
        (fun ss => { ss with topics := newTopics })
        cc.subcategories }

/-- Embedding of `ConfigRepository.add_category_hierarchy`
(`backend/db/repositories/config_repo.py`, lines 115-208).  The repository
reads the tags blob, normalizes the three names, merges them into the
hierarchy and persists the blob if anything changed; the function returns
`(category_added, subcategory_added, topic_added, updated_config)`. -/
def addCategoryHierarchy (cfg : TagsConfig)
    (categoryName subcategoryName topicName : String) :
    Bool × Bool × Bool × TagsConfig :=
  let ncat := pyTitle (pyStrip categoryName)
  let nsub := pyLower (pyStrip subcategoryName)
  let ntop := pyLower (pyStrip topicName)
  match cfg.categories.find? (fun c => pyLower c.name == pyLower ncat) with
  | none =>
    (true, true, ntop != "other",
      ⟨cfg.categories ++ [⟨ncat, [⟨nsub, freshTopics ntop⟩]⟩]⟩)
  | some cat =>
    match cat.subcategories.find? (fun s => pyLower s.name == pyLower nsub) with
    | none =>
      (false, true, ntop != "other",
        ⟨updateFirst (fun c => pyLower c.name == pyLower ncat)
          (appendSub nsub ntop) cfg.categories⟩)
    | some sub =>
      if ntop ∈ sub.topics.map pyLower then
        (false, false, false, cfg)
      else
        let newTopics :=
          if "other" ∈ sub.topics then insertBefore "other" ntop sub.topics
          else sub.topics ++ [ntop]
        (false, false, true,
          ⟨updateFirst (fun c => pyLower c.name == pyLower ncat)
            (setTopics nsub newTopics) cfg.categories⟩)

/-- Invariant on one topic list: if the literal topic `"other"` appears,
it is the last entry. -/
def otherLast (ts : List String) : Prop :=
  "other" ∈ ts → ts.getLast? = some "other"

instance (ts : List String) : Decidable (otherLast ts) := by
  unfold otherLast
  infer_instance

/-- Invariant on the whole taxonomy: every subcategory's topic list
satisfies `otherLast`. -/
def configOtherLast (cfg : TagsConfig) : Prop :=
  ∀ cat ∈ cfg.categories, ∀ sub ∈ cat.subcategories, otherLast sub.topics

instance (cfg : TagsConfig) : Decidable (configOtherLast cfg) := by
  unfold configOtherLast
  infer_instance

/-- A sequence of `add_category_hierarchy` calls, each one starting from the
configuration the previous call left behind. -/
def mergeAll (cfg : TagsConfig) (triples : List (String × String × String)) :
    TagsConfig :=
  triples.foldl (fun acc x => (addCategoryHierarchy acc x.1 x.2.1 x.2.2).2.2.2) cfg

/-! ### Retry wrapper (`backend/utils/retry_utils.py`) -/

/-- Attempt loop of tenacity's `retry` as configured by `with_retry`:
`op i` is the outcome of the i-th invocation of the wrapped operation
(1-indexed), `remaining` counts how many further attempts
`stop_after_attempt` still allows.  On a retryable failure with attempts
remaining the loop re-invokes the operation; a non-retryable failure
propagates immediately; with `reraise=True` exhaustion re-raises the last
exception.  The result pairs the outcome with the index of the last
invocation performed, i.e. the total number of invocations. -/
def retryGo {ε α : Type} (retryable : ε → Bool) (op : Nat → Except ε α) :
    Nat → Nat → Except ε α × Nat
  | remaining, i =>
    match op i with
    | .ok a => (.ok a, i)
    | .error e =>
      if retryable e then
        match remaining with
        | 0 => (.error e, i)
        | r + 1 => retryGo retryable op r (i + 1)
      else (.error e, i)

/-- Embedding of the `with_retry` decorator
(`backend/utils/retry_utils.py`, lines 41-83): tenacity
`retry(stop=stop_after_attempt(max_attempts),
retry=retry_if_exception_type(exceptions), reraise=True)` around an async
operation.  Back-off delays (`wait_exponential_jitter`) only affect timing
and are not modelled. -/
def withRetry {ε α : Type} (maxAttempts : Nat) (retryable : ε → Bool)
    (op : Nat → Except ε α) : Except ε α × Nat :=
  retryGo retryable op (maxAttempts - 1) 1

/-! ### LLM extraction response parsing (`backend/services/llm_service.py`,
`backend/services/extraction_models.py`) -/

/-- JSON values as returned by Python's `json.loads`.  Numeric payloads are
irrelevant to the parsing logic modelled here and are represented by
integers. -/
inductive JsonValue : Type
  | null : JsonValue
  | bool (b : Bool) : JsonValue
  | num (n : Int) : JsonValue
  | str (s : String) : JsonValue
  | arr (xs : List JsonValue) : JsonValue
  | obj (fields : List (String × JsonValue)) : JsonValue

/-- Python `dict.get(key)` on a parsed JSON object (keys unique after
`json.loads`). -/
def jsonGet (fields : List (String × JsonValue)) (k : String) : Option JsonValue :=
  (fields.find? (fun f => f.1 == k)).map (fun f => f.2)

/-- Python truthiness of a JSON value (`if category:` etc.). -/
def jsonTruthy : JsonValue → Bool
  | .null => false
  | .bool b => b
  | .num n => n != 0
  | .str s => s != ""
  | .arr xs => !xs.isEmpty
  | .obj fs => !fs.isEmpty

/-- Result dataclass `ExtractionResult` of `llm_service.py`. -/
structure ExtractionResult where
  raw_data : String
  paraphrased_data : String
  title : String
  category : String
  subcategory : String
  topic : String
  is_new_category : Bool
  is_new_subcategory : Bool
  is_new_topic : Bool
deriving Repr, DecidableEq

/-- `ConceptDetail` of `extraction_models.py`. -/
structure ConceptDetail where
  concept : String
  expanded_information : String
deriving Repr, DecidableEq

/-- `ParaphrasedData` of `extraction_models.py`. -/
structure ParaphrasedData where
  summary : String
  details : List ConceptDetail
deriving Repr, DecidableEq

/-- `CategoryField` of `extraction_models.py` (`is_new` defaults to false). -/
structure CategoryField where
  value : String
  is_new : Bool
deriving Repr, DecidableEq

/-- `ExtractionResponse` of `extraction_models.py`. -/
structure ExtractionResponse where
  raw_data : String
  paraphrased_data : ParaphrasedData
  title : String
  category : CategoryField
  subcategory : CategoryField
  topic : CategoryField
deriving Repr, DecidableEq

/-- Pydantic validation of a `CategoryField`: `value` must be a string,
`is_new` a boolean defaulting to false. -/
def validateCategoryField : JsonValue → Option CategoryField
  | .obj fs =>
    match jsonGet fs "value" with
    | some (.str v) =>
      match jsonGet fs "is_new" with
      | none => some ⟨v, false⟩
      | some (.bool b) => some ⟨v, b⟩
      | some _ => none
    | _ => none
  | _ => none

/-- Pydantic validation of a `ConceptDetail`. -/
def validateConceptDetail : JsonValue → Option ConceptDetail
  | .obj fs =>
    match jsonGet fs "concept", jsonGet fs "expanded_information" with
    | some (.str c), some (.str e) => some ⟨c, e⟩
    | _, _ => none
  | _ => none

/-- Pydantic validation of `ParaphrasedData`: `summary` string plus a list
of valid concept details. -/
def validateParaphrasedData : JsonValue → Option ParaphrasedData
  | .obj fs =>
    match jsonGet fs "summary" with
    | some (.str sm) =>
      match jsonGet fs "details" with
      | some (.arr xs) =>
        match xs.mapM validateConceptDetail with
        | some ds => some ⟨sm, ds⟩
        | none => none
      | _ => none
    | _ => none
  | _ => none

/-- Pydantic validation `ExtractionResponse.model_validate(data)`: all six
fields present with the schema's types (extra keys are ignored, as pydantic
does by default). -/
def validateExtractionResponse : JsonValue → Option ExtractionResponse
  | .obj fs =>
    match jsonGet fs "raw_data", jsonGet fs "title" with
    | some (.str rd), some (.str tl) =>
      match jsonGet fs "paraphrased_data" with
      | some pv =>
        match validateParaphrasedData pv with
        | some pd =>
          match jsonGet fs "category", jsonGet fs "subcategory",
              jsonGet fs "topic" with
          | some cv, some sv, some tv =>
            match validateCategoryField cv, validateCategoryField sv,
                validateCategoryField tv with
            | some cf, some sf, some tf => some ⟨rd, pd, tl, cf, sf, tf⟩
            | _, _, _ => none
          | _, _, _ => none
        | none => none
      | none => none
    | _, _ => none
  | _ => none

/-- JSON string escaping (ASCII fragment: quote, backslash and the common
control characters the application produces). -/
def escapeChars : List Char → List Char
  | [] => []
  | c :: cs =>
    (if c = '"' then ['\\', '"']
     else if c = '\\' then ['\\', '\\']
     else if c = '\n' then ['\\', 'n']
     else if c = '\t' then ['\\', 't']
     else if c = '\r' then ['\\', 'r']
     else [c]) ++ escapeChars cs

def jsonEscape (s : String) : String := ⟨escapeChars s.data⟩

/-- One serialized `ConceptDetail` as `model_dump_json` renders it. -/
def dumpConceptDetail (d : ConceptDetail) : String :=
  "\x7b\"concept\":\"" ++ jsonEscape d.concept ++
    "\",\"expanded_information\":\"" ++ jsonEscape d.expanded_information ++
    "\"\x7d"

def dumpDetails : List ConceptDetail → String
  | [] => ""
  | [d] => dumpConceptDetail d
  | d :: ds => dumpConceptDetail d ++ "," ++ dumpDetails ds

/-- Pydantic `paraphrased_data.model_dump_json()` (compact separators). -/
def dumpParaphrased (p : ParaphrasedData) : String :=
  "\x7b\"summary\":\"" ++ jsonEscape p.summary ++ "\",\"details\":[" ++
    dumpDetails p.details ++ "]\x7d"

mutual

/-- Python `json.dumps` with default separators, for the manual-parse
fallback that serializes a dict/list `paraphrased_data`. -/
def jsonDumps : JsonValue → String
  | .null => "null"
  | .bool b => if b then "true" else "false"
  | .num n => toString n
  | .str s => "\"" ++ jsonEscape s ++ "\""
  | .arr xs => "[" ++ jsonDumpsList xs ++ "]"
  | .obj fs => "\x7b" ++ jsonDumpsFields fs ++ "\x7d"

def jsonDumpsList : List JsonValue → String
  | [] => ""
  | [x] => jsonDumps x
  | x :: xs => jsonDumps x ++ ", " ++ jsonDumpsList xs

def jsonDumpsFields : List (String × JsonValue) → String
  | [] => ""
  | [f] => "\"" ++ jsonEscape f.1 ++ "\": " ++ jsonDumps f.2
  | f :: fs => "\"" ++ jsonEscape f.1 ++ "\": " ++ jsonDumps f.2 ++ ", " ++
      jsonDumpsFields fs

end

/-- Python `text.split("\n")` on the character list. -/
def splitLines : List Char → List (List Char)
  | [] => [[]]
  | c :: cs =>
    if c = '\n' then [] :: splitLines cs
    else
      match splitLines cs with
      | [] => [[c]]
      | x :: xs => (c :: x) :: xs

/-- Python `"\n".join(lines)` on character lists. -/
def joinLines : List (List Char) → List Char
  | [] => []
  | [x] => x
  | x :: xs => x ++ '\n' :: joinLines xs

/-- Markdown code-fence stripping of `_parse_extraction_response`: when the
(stripped) text starts with three backticks, drop the first line, and drop
the last line too when it is exactly three backticks. -/
def stripCodeFences (text : String) : String :=
  if ("```".data).isPrefixOf text.data then
    let lines := splitLines text.data
    let kept :=
      if lines.getLast? = some ("```".data) then (lines.drop 1).dropLast
      else lines.drop 1
    ⟨joinLines kept⟩
  else text

/-- Manual extraction of one classification field (category / subcategory /
topic) in the backward-compatibility branch: supports the structured
`\x7b"value", "is_new"\x7d` shape and the legacy bare-string shape (treated
as `is_new = false`).  Returns the pre-normalization value and the flag.
A `.error` models the `AttributeError` Python raises when the later
`.strip()` call hits a truthy non-string value; falsy non-string values are
collapsed to `""` (both skip normalization).  `is_new` carries the Python
truthiness of the stored flag, which is how every downstream use reads it. -/
def extractClassField (fields : List (String × JsonValue)) (key dflt : String) :
    Except String (String × Bool) :=
  match jsonGet fields key with
  | none => .ok (dflt, false)
  | some (.obj sub) =>
    let isNew :=
      match jsonGet sub "is_new" with
      | none => false
      | some v => jsonTruthy v
    match jsonGet sub "value" with
    | none => .ok (dflt, isNew)
    | some (.str s) => .ok (s, isNew)
    | some v => if jsonTruthy v then .error "AttributeError" else .ok ("", isNew)
  | some (.str s) => .ok (s, false)
  | some v => if jsonTruthy v then .error "AttributeError" else .ok ("", false)

/-- Manual `data.get("raw_data", "")`; a non-string value is kept as its
JSON rendering. -/
def manualRaw (fields : List (String × JsonValue)) : String :=
  match jsonGet fields "raw_data" with
  | none => ""
  | some (.str s) => s
  | some v => jsonDumps v

/-- Manual `data.get("title", "Untitled")`. -/
def manualTitle (fields : List (String × JsonValue)) : String :=
  match jsonGet fields "title" with
  | none => "Untitled"
  | some (.str s) => s
  | some v => jsonDumps v

/-- Manual `paraphrased_data` handling: dict/list values are serialized with
`json.dumps`; strings pass through; a missing key gives `""`. -/
def manualParaphrased (fields : List (String × JsonValue)) : String :=
  match jsonGet fields "paraphrased_data" with
  | none => ""
  | some (.obj fs) => jsonDumps (.obj fs)
  | some (.arr xs) => jsonDumps (.arr xs)
  | some (.str s) => s
  | some v => jsonDumps v

/-- Manual-parsing branch of `_parse_extraction_response` (the
backward-compatibility fallback when pydantic validation fails). -/
def manualParse (data : JsonValue) (dc ds dt : String) :
    Except String ExtractionResult :=
  match data with
  | .obj fields =>
    match extractClassField fields "category" dc,
        extractClassField fields "subcategory" ds,
        extractClassField fields "topic" dt with
    | .ok cv, .ok sv, .ok tv =>
      .ok ⟨manualRaw fields, manualParaphrased fields, manualTitle fields,
        if cv.1 ≠ "" then pyTitle (pyStrip cv.1) else cv.1,
        if sv.1 ≠ "" then pyLower (pyStrip sv.1) else sv.1,
        if tv.1 ≠ "" then pyLower (pyStrip tv.1) else tv.1,
        cv.2, sv.2, tv.2⟩
    | .error e, _, _ => .error e
    | _, .error e, _ => .error e
    | _, _, .error e => .error e
  | _ => .error "AttributeError"

/-- Embedding of `_parse_extraction_response`
(`backend/services/llm_service.py`, lines 152-258).  `jsonLoads` abstracts
Python's `json.loads`; `none` models a `json.JSONDecodeError`, the only
exception the function itself catches.  A `.error` result models an uncaught
Python exception escaping the function. -/
def parseExtractionResponse (jsonLoads : String → Option JsonValue)
    (responseText defaultCategory defaultSubcategory defaultTopic : String) :
    Except String ExtractionResult :=
  let text := stripCodeFences (pyStrip responseText)
  match jsonLoads text with
  | none =>
    .ok ⟨responseText, "Failed to parse structured response",
      "Extraction Result", defaultCategory, defaultSubcategory, defaultTopic,
      false, false, false⟩
  | some data =>
    match validateExtractionResponse data with
    | some v =>
      .ok ⟨v.raw_data, dumpParaphrased v.paraphrased_data, v.title,
        pyTitle (pyStrip v.category.value),
        pyLower (pyStrip v.subcategory.value),
        pyLower (pyStrip v.topic.value),
        v.category.is_new, v.subcategory.is_new, v.topic.is_new⟩
    | none => manualParse data defaultCategory defaultSubcategory defaultTopic

/-! ### Provider error mapping and retry allowlists
(`backend/services/embedding_service.py`, `backend/services/llm_service.py`) -/

/-- Error classes raised by the OpenAI SDK that the services distinguish. -/
inductive OpenAIError : Type
  | rateLimit
  | apiTimeout
  | apiConnection
  | authentication
  | badRequest
  | other (msg : String)
deriving Repr, DecidableEq

/-- Application exception kinds (`backend/exceptions`): `EmbeddingError` and
`ExtractionError` subclass `IngestionException`, while
`LLMConfigurationError` subclasses `LLMException` and is neither. -/
inductive ServiceError : Type
  | embeddingError (msg : String)
  | extractionError (msg : String)
  | llmConfigurationError (msg : String)
deriving Repr, DecidableEq

/-- `retry_if_exception_type((EmbeddingError,))`. -/
def isEmbeddingError : ServiceError → Bool
  | .embeddingError _ => true
  | _ => false

/-- `retry_if_exception_type((ExtractionError,))`. -/
def isExtractionError : ServiceError → Bool
  | .extractionError _ => true
  | _ => false

/-- Body of `EmbeddingService.generate_embedding` for one attempt
(`backend/services/embedding_service.py`, lines 44-87): the empty-text check,
the mock branch, and the provider-error mapping.  Every branch of the
`except` ladder — including `AuthenticationError` and `BadRequestError`,
whose inline comments say "Not retryable - fail immediately" — raises
`EmbeddingError`.  `provider i` is the outcome of the i-th API call;
embedding vectors are opaque payloads. -/
def generateEmbeddingAttempt (useMock : Bool)
    (mockEmbedding : String → List Int)
    (provider : Nat → Except OpenAIError (List Int)) (text : String)
    (i : Nat) : Except ServiceError (List Int) :=
  if pyStrip text = "" then .error (.embeddingError "Empty text provided")
  else if useMock then .ok (mockEmbedding text)
  else
    match provider i with
    | .ok v => .ok v
    | .error .rateLimit => .error (.embeddingError "Rate limit exceeded")
    | .error .apiTimeout => .error (.embeddingError "Request timed out")
    | .error .apiConnection => .error (.embeddingError "Connection error")
    | .error .authentication => .error (.embeddingError "Authentication failed")
    | .error .badRequest => .error (.embeddingError "Invalid request")
    | .error (.other m) =>
      .error (.embeddingError ("Embedding generation failed: " ++ m))

/-- `generate_embedding` wrapped by
`@with_retry(config=RetryConfig(max_attempts=3),
retryable_exceptions=(EmbeddingError,))`; the second component is the number
of invocations performed. -/
def generateEmbedding (useMock : Bool) (mockEmbedding : String → List Int)
    (provider : Nat → Except OpenAIError (List Int)) (text : String) :
    Except ServiceError (List Int) × Nat :=
  withRetry 3 isEmbeddingError
    (generateEmbeddingAttempt useMock mockEmbedding provider text)

/-- Body of `LLMService._extract_with_openai` for one attempt
(`backend/services/llm_service.py`, lines 345-390): the provider returns the
response text, which `_parse_extraction_response` parses;
`RateLimitError`/`APITimeoutError`/`APIConnectionError` map to
`ExtractionError`, `AuthenticationError` maps to `LLMConfigurationError`,
and any other exception (including `BadRequestError`, which has no dedicated
handler, and parse-time errors) maps to `ExtractionError`. -/
def extractWithOpenAIAttempt (jsonLoads : String → Option JsonValue)
    (provider : Nat → Except OpenAIError String) (i : Nat) :
    Except ServiceError ExtractionResult :=
  match provider i with
  | .error .rateLimit => .error (.extractionError "Rate limit exceeded")
  | .error .apiTimeout => .error (.extractionError "Request timed out")
  | .error .apiConnection => .error (.extractionError "Connection error")
  | .error .authentication =>
    .error (.llmConfigurationError "Authentication failed")
  | .error .badRequest => .error (.extractionError "Bad request")
  | .error (.other m) => .error (.extractionError m)
  | .ok responseText =>
    match parseExtractionResponse jsonLoads responseText
        "Misc" "general" "general" with
    | .ok r => .ok r
    | .error m => .error (.extractionError m)

/-- `extract_content` on the OpenAI route, wrapped by
`@with_retry(config=RetryConfig(max_attempts=3),
retryable_exceptions=(ExtractionError,))`. -/
def extractContentOpenAI (jsonLoads : String → Option JsonValue)
    (provider : Nat → Except OpenAIError String) :
    Except ServiceError ExtractionResult × Nat :=
  withRetry 3 isExtractionError (extractWithOpenAIAttempt jsonLoads provider)

/-! ### Knowledge records and the record store
(`backend/db/models/knowledge.py`, `backend/db/repositories/knowledge_repo.py`) -/

/-- `KnowledgeStatus` enum. -/
inductive KnowledgeStatus : Type
  | pending
  | processing
  | completed
  | failed
deriving Repr, DecidableEq

/-- `Knowledge` record.  Ids are the opaque store-assigned keys, modelled as
naturals handed out by a counter; embedding vectors are opaque integer
lists; the store-managed timestamps are not modelled. -/
structure Knowledge where
  id : Nat
  category : String
  subcategory : String
  topic : String
  title : String
  raw_data : String
  paraphrased_data : String
  image : String
  url : String
  status : KnowledgeStatus
  last_error : Option String
  comments : Option String
  retry_count : Nat
  embedding : Option (List Int)
deriving Repr, DecidableEq

/-- `KnowledgeRepository.get_by_id`. -/
def getById (db : List Knowledge) (id : Nat) : Option Knowledge :=
  db.find? (fun r => r.id == id)

/-- `KnowledgeRepository.get_by_image` (exact match, first hit). -/
def getByImage (db : List Knowledge) (image : String) : Option Knowledge :=
  db.find? (fun r => r.image == image)

/-- A SQL `update ... where id = ...`: rewrite the record(s) with the given
id through `f`. -/
def updateRecord (db : List Knowledge) (id : Nat) (f : Knowledge → Knowledge) :
    List Knowledge :=
  db.map (fun r => if r.id == id then f r else r)

/-- Field effect of `KnowledgeRepository.update_status` (lines 134-166):
`status` and `last_error` are always written (`last_error` is cleared when
`error` is `None`), `comments` only when not `None`, and `retry_count` is
re-read and incremented when `increment_retry` is set. -/
def applyUpdateStatus (status : KnowledgeStatus) (error comments : Option String)
    (incr : Bool) (r : Knowledge) : Knowledge :=
  { r with
      status := status
      last_error := error
      comments := match comments with | some c => some c | none => r.comments
      retry_count := if incr then r.retry_count + 1 else r.retry_count }

/-- `KnowledgeRepository.update_status` on the store. -/
def updateStatusDb (db : List Knowledge) (id : Nat) (status : KnowledgeStatus)
    (error comments : Option String) (incr : Bool) : List Knowledge :=
  updateRecord db id (applyUpdateStatus status error comments incr)

/-- Field effect of `KnowledgeRepository.update_with_extraction`
(lines 168-194): writes the six extraction fields and the embedding, sets
status `completed`, clears `last_error`, and leaves `comments` untouched. -/
def applyUpdateWithExtraction (raw paraphrased title category subcategory
    topic : String) (embedding : List Int) (r : Knowledge) : Knowledge :=
  { r with
      raw_data := raw
      paraphrased_data := paraphrased
      title := title
      category := category
      subcategory := subcategory
      topic := topic
      embedding := some embedding
      status := KnowledgeStatus.completed
      last_error := none }

/-- Field effect of `KnowledgeRepository.reset_for_reprocessing`
(lines 196-224): clears the extraction fields and the embedding, sets status
`pending`, clears `last_error`, sets the fixed reprocessing comment, and
zeroes `retry_count`. -/
def applyReset (r : Knowledge) : Knowledge :=
  { r with
      status := KnowledgeStatus.pending
      category := ""
      subcategory := ""
      topic := "general"
      title := ""
      raw_data := ""
      paraphrased_data := ""
      embedding := none
      last_error := none
      comments := some "Reprocessing - URL/image already existed"
      retry_count := 0 }

/-- Record created by the single-source entry points (`Knowledge(...)` with
status `PENDING`; model defaults: topic `"general"`, no error/comments, zero
retries, no embedding — `create` drops a `None` embedding so the stored
value is null). -/
def newKnowledge (id : Nat) (image url title : String) : Knowledge :=
  ⟨id, "", "", "general", title, "", "", image, url, .pending, none, none, 0, none⟩

/-! ### Image validation (`backend/utils/image_utils.py`) -/

/-- Embedding of `validate_image` (magic-number sniffing, lines 84-116).
Bytes are naturals.  The dedicated `RIFF....WEBP` check below the loop is
unreachable because the loop already accepts any `RIFF` prefix; it is kept
as in the source. -/
def validateImage (b : List Nat) : Except String Unit :=
  if b.length < 8 then .error "Image too small"
  else if [0xff, 0xd8, 0xff].isPrefixOf b then .ok ()
  else if [0x89, 0x50, 0x4e, 0x47, 0x0d, 0x0a, 0x1a, 0x0a].isPrefixOf b then .ok ()
  else if [0x47, 0x49, 0x46, 0x38, 0x37, 0x61].isPrefixOf b then .ok ()
  else if [0x47, 0x49, 0x46, 0x38, 0x39, 0x61].isPrefixOf b then .ok ()
  else if [0x52, 0x49, 0x46, 0x46].isPrefixOf b then .ok ()
  else if b.take 4 = [0x52, 0x49, 0x46, 0x46] ∧
      (b.drop 8).take 4 = [0x57, 0x45, 0x42, 0x50] then .ok ()
  else .error "Unknown image format"

/-! ### Ingestion orchestrator (`backend/services/ingestion_service.py`) -/

/-- External collaborators of one pipeline run: `download_image`,
`get_image_from_path`, `LLMService.extract_content` (its net outcome,
internal retries included; it receives the current taxonomy for the prompt)
and `EmbeddingService.generate_embedding`'s net outcome. -/
structure PipelineEnv where
  download : String → Except String (List Nat)
  readPath : String → Except String (List Nat)
  extract : List Nat → TagsConfig → Except String ExtractionResult
  embed : String → Except String (List Int)

/-- Orchestrator-visible shared state: the knowledge table, the id counter,
the tags configuration blob, and counters of Extraction / Embedding
capability invocations. -/
structure OrchestratorState where
  db : List Knowledge
  nextId : Nat
  tags : TagsConfig
  extractionCalls : Nat
  embeddingCalls : Nat
deriving Repr

/-- `record.image.startswith(("http://", "https://"))` chooses
`download_image` over `get_image_from_path`. -/
def fetchImage (env : PipelineEnv) (image : String) : Except String (List Nat) :=
  if ("http://".data.isPrefixOf image.data || "https://".data.isPrefixOf image.data)
  then env.download image
  else env.readPath image

/-- The catch-all of `_process_record`: set status `FAILED`, record the
error text, attribute the failing step in `comments`, and increment
`retry_count`. -/
def markFailed (st : OrchestratorState) (rid : Nat) (errMsg step : String) :
    OrchestratorState :=
  { st with
      db := updateStatusDb st.db rid .failed (some errMsg)
        (some ("Failed at step: " ++ step)) true }

/-- Embedding of `IngestionService._process_record` (lines 308-433): set
`PROCESSING`, reload the record, fetch the image bytes, validate them, read
the tags config, extract, conditionally merge the taxonomy, embed, persist;
any failure is converted into a `FAILED` update attributed to the current
step.  Returns the success flag and the new state. -/
def processRecord (env : PipelineEnv) (st : OrchestratorState) (rid : Nat) :
    Bool × OrchestratorState :=
  let st1 : OrchestratorState :=
    { st with db := updateStatusDb st.db rid .processing none none false }
  match getById st1.db rid with
  | none =>
    (false, markFailed st1 rid "Database fetch failed: Record not found"
      "fetching record")
  | some record =>
    match fetchImage env record.image with
    | .error e => (false, markFailed st1 rid e "downloading/loading image")
    | .ok imageBytes =>
      match validateImage imageBytes with
      | .error e =>
        (false, markFailed st1 rid ("Invalid image format: " ++ e)
          "validating image")
      | .ok _ =>
        let st2 : OrchestratorState :=
          { st1 with extractionCalls := st1.extractionCalls + 1 }
        match env.extract imageBytes st1.tags with
        | .error e => (false, markFailed st2 rid e "extracting content with LLM")
        | .ok extraction =>
          let st3 : OrchestratorState :=
            if extraction.is_new_category || extraction.is_new_subcategory ||
                extraction.is_new_topic then
              { st2 with
                  tags := (addCategoryHierarchy st2.tags extraction.category
                    extraction.subcategory extraction.topic).2.2.2 }
            else st2
          let st4 : OrchestratorState :=
            { st3 with embeddingCalls := st3.embeddingCalls + 1 }
          match env.embed extraction.raw_data with
          | .error e => (false, markFailed st4 rid e "generating embedding")
          | .ok emb =>
            (true,
              { st4 with
                  db := updateRecord st4.db rid
                    (applyUpdateWithExtraction extraction.raw_data
                      extraction.paraphrased_data extraction.title
                      extraction.category extraction.subcategory
                      extraction.topic emb) })

/-- Embedding of `IngestionService._process_record_with_bytes`
(lines 435-541): same pipeline but the bytes are already in hand, so the
fetch step is skipped. -/
def processRecordWithBytes (env : PipelineEnv) (st : OrchestratorState)
    (rid : Nat) (imageBytes : List Nat) : Bool × OrchestratorState :=
  let st1 : OrchestratorState :=
    { st with db := updateStatusDb st.db rid .processing none none false }
  match getById st1.db rid with
  | none =>
    (false, markFailed st1 rid "Database fetch failed: Record not found"
      "fetching record")
  | some _record =>
    match validateImage imageBytes with
    | .error e =>
      (false, markFailed st1 rid ("Invalid image format: " ++ e)
        "validating image")
    | .ok _ =>
      let st2 : OrchestratorState :=
        { st1 with extractionCalls := st1.extractionCalls + 1 }
      match env.extract imageBytes st1.tags with
      | .error e => (false, markFailed st2 rid e "extracting content with LLM")
      | .ok extraction =>
        let st3 : OrchestratorState :=
          if extraction.is_new_category || extraction.is_new_subcategory ||
              extraction.is_new_topic then
            { st2 with
                tags := (addCategoryHierarchy st2.tags extraction.category
                  extraction.subcategory extraction.topic).2.2.2 }
          else st2
        let st4 : OrchestratorState :=
          { st3 with embeddingCalls := st3.embeddingCalls + 1 }
        match env.embed extraction.raw_data with
        | .error e => (false, markFailed st4 rid e "generating embedding")
        | .ok emb =>
          (true,
            { st4 with
                db := updateRecord st4.db rid
                  (applyUpdateWithExtraction extraction.raw_data
                    extraction.paraphrased_data extraction.title
                    extraction.category extraction.subcategory
                    extraction.topic emb) })

/-- Embedding of `IngestionService.ingest_from_url` (lines 51-100): dedupe
by source identifier, short-circuit on `COMPLETED`, reset in place
otherwise, create a fresh `PENDING` record when unseen, then run the
pipeline synchronously.  The job id is returned either way. -/
def ingestFromUrl (env : PipelineEnv) (st : OrchestratorState) (url : String) :
    Nat × OrchestratorState :=
  match getByImage st.db url with
  | some existing =>
    if existing.status = .completed then (existing.id, st)
    else
      let st1 : OrchestratorState :=
        { st with db := updateRecord st.db existing.id applyReset }
      (existing.id, (processRecord env st1 existing.id).2)
  | none =>
    let r := newKnowledge st.nextId url url ""
    let st1 : OrchestratorState :=
      { st with db := st.db ++ [r], nextId := st.nextId + 1 }
    (r.id, (processRecord env st1 r.id).2)

/-- Embedding of `IngestionService.ingest_from_bytes` (lines 102-163): the
bytes are validated first (an invalid image raises out of the entry point),
then the same dedupe/reset/create logic runs, then the pipeline with the
supplied bytes (`title` is `filename or ""`, which equals `filename`). -/
def ingestFromBytes (env : PipelineEnv) (st : OrchestratorState)
    (imageBytes : List Nat) (sourceUrl filename : String) :
    Except String (Nat × OrchestratorState) :=
  match validateImage imageBytes with
  | .error e => .error ("Invalid image format: " ++ e)
  | .ok _ =>
    match getByImage st.db sourceUrl with
    | some existing =>
      if existing.status = .completed then .ok (existing.id, st)
      else
        let st1 : OrchestratorState :=
          { st with db := updateRecord st.db existing.id applyReset }
        .ok (existing.id, (processRecordWithBytes env st1 existing.id imageBytes).2)
    | none =>
      let r := newKnowledge st.nextId sourceUrl sourceUrl filename
      let st1 : OrchestratorState :=
        { st with db := st.db ++ [r], nextId := st.nextId + 1 }
      .ok (r.id, (processRecordWithBytes env st1 r.id imageBytes).2)

/-- Python `PurePath.suffix`: the extension of the final path component
(`name[i:]` for the last dot at `0 < i < len(name) - 1`, else `""`). -/
def pySuffix (path : String) : String :=
  let name := (path.data.reverse.takeWhile (fun c => c != '/')).reverse
  match name.reverse.findIdx? (fun c => c == '.') with
  | none => ""
  | some j =>
    let i := name.length - 1 - j
    if 0 < i ∧ i < name.length - 1 then ⟨name.drop i⟩ else ""

/-- The folder loop's `image_extensions` filter
(`file_path.suffix.lower() in {...}`). -/
def hasImageExtension (path : String) : Bool :=
  [".jpg", ".jpeg", ".png", ".gif", ".webp"].contains (pyLower (pySuffix path))

/-- First phase of `IngestionService.ingest_from_local_folder`
(lines 192-224): for each listed file with an image extension, skip it when
an existing record is `COMPLETED` (no id is emitted), reset an existing
non-completed record in place, or create a fresh `PENDING` record; the
emitted job ids keep folder order. -/
def prepareFolderJobs (st : OrchestratorState) :
    List String → List Nat × OrchestratorState
  | [] => ([], st)
  | f :: fs =>
    if hasImageExtension f then
      match getByImage st.db f with
      | some existing =>
        if existing.status = .completed then prepareFolderJobs st fs
        else
          let st1 : OrchestratorState :=
            { st with db := updateRecord st.db existing.id applyReset }
          let rest := prepareFolderJobs st1 fs
          (existing.id :: rest.1, rest.2)
      | none =>
        let r := newKnowledge st.nextId f "" ""
        let st1 : OrchestratorState :=
          { st with db := st.db ++ [r], nextId := st.nextId + 1 }
        let rest := prepareFolderJobs st1 fs
        (r.id :: rest.1, rest.2)
    else prepareFolderJobs st fs

/-- Second phase of `ingest_from_local_folder` (lines 230-236): process the
prepared records sequentially; `_process_record` never raises, so one
record's failure never stops the loop. -/
def processAll (env : PipelineEnv) (st : OrchestratorState) (ids : List Nat) :
    OrchestratorState :=
  ids.foldl (fun s id => (processRecord env s id).2) st

/-- Embedding of `IngestionService.ingest_from_local_folder`
(lines 165-239): `files` is the folder listing (filesystem oracle); the
function returns every prepared job id, ids of failed records included. -/
def ingestFromLocalFolder (env : PipelineEnv) (st : OrchestratorState)
    (files : List String) : List Nat × OrchestratorState :=
  let prep := prepareFolderJobs st files
  (prep.1, processAll env prep.2 prep.1)

/-- Embedding of `IngestionService.retry_record` (lines 241-270): only legal
on a `FAILED` record (a missing record or another status raises
`IngestionException`); resets the record to `PENDING` clearing `last_error`
(`comments` and `retry_count` untouched), reprocesses, and returns `True`
regardless of the reprocessing outcome. -/
def retryRecord (env : PipelineEnv) (st : OrchestratorState) (rid : Nat) :
    Except String (Bool × OrchestratorState) :=
  match getById st.db rid with
  | none => .error "Record not found"
  | some record =>
    if record.status = .failed then
      let st1 : OrchestratorState :=
        { st with db := updateStatusDb st.db rid .pending none none false }
      .ok (true, (processRecord env st1 rid).2)
    else .error "Record is not in failed status"

/-! ### The per-record state machine as the orchestrator drives it -/

/-- One orchestrator-issued store operation on a single knowledge record,
with the guard under which the orchestrator issues it:

* `processingStart` — `update_status(id, PROCESSING)` at the top of
  `_process_record`; every caller runs the pipeline on a record that was
  just created, reset, or re-pended, so its status is `PENDING`.
* `retryToPending` — `update_status(id, PENDING, error=None)` in
  `retry_record` / `retry_all_failed`, both only on `FAILED` records
  (`retry_all_failed` also passes `comments=None`, which `update_status`
  ignores, so the effect is identical).
* `pipelineFailure` — the catch-all
  `update_status(id, FAILED, error, comments, increment_retry=True)`;
  the pipeline never runs on a `COMPLETED` record (both entry points
  short-circuit on `COMPLETED` and the retry paths demand `FAILED`).
* `extractionComplete` — `update_with_extraction` at the end of a
  successful pipeline run, on the record set to `PROCESSING` in step 1;
  the embedding written is the non-null vector `generate_embedding`
  returned.
* `reprocessReset` — `reset_for_reprocessing`, used by the ingestion entry
  points only when the existing record is not `COMPLETED`. -/
inductive OrchTransition : Knowledge → Knowledge → Prop
  | processingStart (r : Knowledge) (h : r.status = .pending) :
      OrchTransition r (applyUpdateStatus .processing none none false r)
  | retryToPending (r : Knowledge) (h : r.status = .failed) :
      OrchTransition r (applyUpdateStatus .pending none none false r)
  | pipelineFailure (r : Knowledge) (e c : String) (h : r.status ≠ .completed) :
      OrchTransition r (applyUpdateStatus .failed (some e) (some c) true r)
  | extractionComplete (r : Knowledge)
      (raw par ttl cat sub top : String) (emb : List Int)
      (h : r.status = .processing) :
      OrchTransition r (applyUpdateWithExtraction raw par ttl cat sub top emb r)
  | reprocessReset (r : Knowledge) (h : r.status ≠ .completed) :
      OrchTransition r (applyReset r)

/-- The C2 invariant: the embedding field is non-null exactly when the
record is `COMPLETED`. -/
def EmbeddingInvariant (r : Knowledge) : Prop :=
  r.embedding ≠ none ↔ r.status = .completed

instance (r : Knowledge) : Decidable (EmbeddingInvariant r) := by
  unfold EmbeddingInvariant
  infer_instance

/-- The environment lets a pipeline run for this source succeed end to end:
the bytes arrive, validate, and extraction + embedding succeed whatever
taxonomy is in effect when the record is processed. -/
def PipelineSucceedsOn (env : PipelineEnv) (img : String) : Prop :=
  ∃ bytes, fetchImage env img = .ok bytes ∧ validateImage bytes = .ok () ∧
    ∀ tags, ∃ ex emb, env.extract bytes tags = .ok ex ∧
      env.embed ex.raw_data = .ok emb

/-- The source's bytes arrive but fail the magic-number validation. -/
def FailsValidationOn (env : PipelineEnv) (img : String) : Prop :=
  ∃ bytes, fetchImage env img = .ok bytes ∧ ∃ e, validateImage bytes = .error e

/-- A valid 8-byte PNG header, used as concrete image bytes. -/
def pngBytes : List Nat := [0x89, 0x50, 0x4e, 0x47, 0x0d, 0x0a, 0x1a, 0x0a]

/-- A concrete extraction result with no new-taxonomy flags. -/
def sampleExtraction : ExtractionResult :=
  ⟨"R", "P", "T", "Code", "backend", "api", false, false, false⟩

/-- An environment in which every external call succeeds. -/
def happyEnv : PipelineEnv :=
  ⟨fun _ => .ok pngBytes, fun _ => .ok pngBytes,
    fun _ _ => .ok sampleExtraction, fun _ => .ok [1]⟩

/-- A concrete `FAILED` record for source `"u"` with one prior retry. -/
def failedURecord : Knowledge :=
  ⟨0, "", "", "general", "", "", "", "u", "u", .failed, some "boom",
    some "Failed at step: generating embedding", 1, none⟩

/-- An environment where the local file `"b.png"` yields bytes with no
known magic number and every other source succeeds end to end. -/
def envC5 : PipelineEnv :=
  ⟨fun _ => .ok pngBytes,
    fun p => if p = "b.png" then .ok [1, 2, 3, 4, 5, 6, 7, 8]
      else .ok pngBytes,
    fun _ _ => .ok sampleExtraction, fun _ => .ok [1]⟩

/-- An empty orchestrator state. -/
def stC5 : OrchestratorState := ⟨[], 0, ⟨[]⟩, 0, 0⟩

/-- A three-file folder listing whose middle file fails validation under
`envC5`. -/
def filesC5 : List String := ["a.png", "b.png", "c.png"]

/-- Consecutive ids handed out by the store counter. -/
def idsFrom (start : Nat) : Nat → List Nat
  | 0 => []
  | n + 1 => start :: idsFrom (start + 1) n

/-- The fresh `PENDING` records the folder loop creates for a list of new
files, with consecutive ids. -/
def folderRecords (files : List String) (startId : Nat) : List Knowledge :=
  match files with
  | [] => []
  | f :: fs => newKnowledge startId f "" "" :: folderRecords fs (startId + 1)

/-! ### Facts about the taxonomy merge -/

/-- Auxiliary fact: packing a valid codepoint and reading it back is the identity. -/
theorem charToNat_ofNat_of_valid {n : Nat} (h : n.isValidChar) :
    (Char.ofNat n).toNat = n := by
  unfold Char.ofNat
  rw [dif_pos h]
  rfl

/-- Lowercasing an ASCII character twice is the same as doing it once. -/
theorem charToLower_idem (c : Char) : c.toLower.toLower = c.toLower := by
  unfold Char.toLower
  by_cases h : c.toNat ≥ 65 ∧ c.toNat ≤ 90
  · rw [if_pos h]
    have hv : Nat.isValidChar (c.toNat + 32) := Or.inl (by omega)
    have ht : (Char.ofNat (c.toNat + 32)).toNat = c.toNat + 32 :=
      charToNat_ofNat_of_valid hv
    rw [if_neg]
    omega
  · rw [if_neg h, if_neg h]

/-- Lowercasing a string is idempotent. -/
theorem pyLower_idem (s : String) : pyLower (pyLower s) = pyLower s := by
  unfold pyLower
  simp [List.map_map, Function.comp_def, charToLower_idem]

theorem find?_updateFirst {α : Type} (p : α → Bool) (f : α → α) (l : List α)
    (hf : ∀ x, p x = true → p (f x) = true) :
    (updateFirst p f l).find? p = (l.find? p).map f := by
  induction l with
  | nil => rfl
  | cons y ys ih =>
    simp only [updateFirst]
    by_cases hy : p y = true
    · rw [if_pos hy, List.find?_cons_of_pos _ (hf y hy), List.find?_cons_of_pos _ hy]
      rfl
    · rw [if_neg hy, List.find?_cons_of_neg _ hy, List.find?_cons_of_neg _ hy, ih]

theorem mem_updateFirst {α : Type} {p : α → Bool} {f : α → α} {l : List α} {y : α}
    (h : y ∈ updateFirst p f l) : y ∈ l ∨ ∃ x ∈ l, y = f x := by
  induction l with
  | nil => cases h
  | cons z zs ih =>
    simp only [updateFirst] at h
    by_cases hz : p z = true
    · rw [if_pos hz] at h
      rcases List.mem_cons.mp h with rfl | h2
      · exact Or.inr ⟨z, List.mem_cons_self z zs, rfl⟩
      · exact Or.inl (List.mem_cons_of_mem z h2)
    · rw [if_neg hz] at h
      rcases List.mem_cons.mp h with rfl | h2
      · exact Or.inl (List.mem_cons_self y zs)
      · rcases ih h2 with h3 | ⟨x, hx, rfl⟩
        · exact Or.inl (List.mem_cons_of_mem z h3)
        · exact Or.inr ⟨x, List.mem_cons_of_mem z hx, rfl⟩

theorem mem_insertBefore_self {x t : String} {l : List String} (h : x ∈ l) :
    t ∈ insertBefore x t l := by
  induction l with
  | nil => cases h
  | cons y ys ih =>
    simp only [insertBefore]
    by_cases hy : y = x
    · rw [if_pos hy]
      exact List.mem_cons_self t _
    · rw [if_neg hy]
      rcases List.mem_cons.mp h with rfl | h2
      · exact absurd rfl hy
      · exact List.mem_cons_of_mem y (ih h2)

theorem insertBefore_ne_nil {x t : String} {l : List String} (h : l ≠ []) :
    insertBefore x t l ≠ [] := by
  cases l with
  | nil => exact absurd rfl h
  | cons y ys =>
    simp only [insertBefore]
    by_cases hy : y = x
    · rw [if_pos hy]; simp
    · rw [if_neg hy]; simp

theorem getLast?_cons_of_ne_nil {α : Type} (y : α) {l : List α} (h : l ≠ []) :
    (y :: l).getLast? = l.getLast? := by
  cases l with
  | nil => exact absurd rfl h
  | cons z zs => simp

theorem getLast?_insertBefore {x t : String} {l : List String} (h : x ∈ l) :
    (insertBefore x t l).getLast? = l.getLast? := by
  induction l with
  | nil => cases h
  | cons y ys ih =>
    simp only [insertBefore]
    by_cases hy : y = x
    · rw [if_pos hy]
      simp
    · rw [if_neg hy]
      have hx : x ∈ ys := by
        rcases List.mem_cons.mp h with rfl | h2
        · exact absurd rfl hy
        · exact h2
      have hne : ys ≠ [] := by
        intro hnil
        rw [hnil] at hx
        cases hx
      rw [getLast?_cons_of_ne_nil y (insertBefore_ne_nil hne), ih hx,
          getLast?_cons_of_ne_nil y hne]

theorem mem_map_pyLower_of_lowered {ntop : String} {l : List String}
    (hidem : pyLower ntop = ntop) (h : ntop ∈ l) : ntop ∈ l.map pyLower :=
  List.mem_map.mpr ⟨ntop, h, hidem⟩

theorem ntop_mem_freshTopics {ntop : String} (hidem : pyLower ntop = ntop) :
    ntop ∈ (freshTopics ntop).map pyLower := by
  unfold freshTopics
  by_cases hto : ntop = "other"
  · subst hto
    rw [bne_self_eq_false]
    simp only [Bool.false_eq_true, if_false]
    exact mem_map_pyLower_of_lowered hidem (List.mem_cons_self _ _)
  · rw [if_pos (bne_iff_ne.mpr hto)]
    exact mem_map_pyLower_of_lowered hidem (List.mem_cons_self ntop _)

theorem addCategoryHierarchy_eq_newcat {cfg : TagsConfig} {c s t : String}
    (hc : cfg.categories.find?
      (fun cc => pyLower cc.name == pyLower (pyTitle (pyStrip c))) = none) :
    addCategoryHierarchy cfg c s t =
      (true, true, pyLower (pyStrip t) != "other",
        ⟨cfg.categories ++ [⟨pyTitle (pyStrip c),
          [⟨pyLower (pyStrip s), freshTopics (pyLower (pyStrip t))⟩]⟩]⟩) := by
  simp only [addCategoryHierarchy, hc]

theorem addCategoryHierarchy_eq_newsub {cfg : TagsConfig} {c s t : String}
    {cat : CategoryConfig}
    (hc : cfg.categories.find?
      (fun cc => pyLower cc.name == pyLower (pyTitle (pyStrip c))) = some cat)
    (hs : cat.subcategories.find?
      (fun ss => pyLower ss.name == pyLower (pyLower (pyStrip s))) = none) :
    addCategoryHierarchy cfg c s t =
      (false, true, pyLower (pyStrip t) != "other",
        ⟨updateFirst (fun cc => pyLower cc.name == pyLower (pyTitle (pyStrip c)))
          (appendSub (pyLower (pyStrip s)) (pyLower (pyStrip t)))
          cfg.categories⟩) := by
  simp only [addCategoryHierarchy, hc, hs]

theorem addCategoryHierarchy_eq_noop {cfg : TagsConfig} {c s t : String}
    {cat : CategoryConfig} {sub : SubcategoryConfig}
    (hc : cfg.categories.find?
      (fun cc => pyLower cc.name == pyLower (pyTitle (pyStrip c))) = some cat)
    (hs : cat.subcategories.find?
      (fun ss => pyLower ss.name == pyLower (pyLower (pyStrip s))) = some sub)
    (hm : pyLower (pyStrip t) ∈ sub.topics.map pyLower) :
    addCategoryHierarchy cfg c s t = (false, false, false, cfg) := by
  simp only [addCategoryHierarchy, hc, hs, if_pos hm]

theorem addCategoryHierarchy_eq_newtopic {cfg : TagsConfig} {c s t : String}
    {cat : CategoryConfig} {sub : SubcategoryConfig}
    (hc : cfg.categories.find?
      (fun cc => pyLower cc.name == pyLower (pyTitle (pyStrip c))) = some cat)
    (hs : cat.subcategories.find?
      (fun ss => pyLower ss.name == pyLower (pyLower (pyStrip s))) = some sub)
    (hm : pyLower (pyStrip t) ∉ sub.topics.map pyLower) :
    addCategoryHierarchy cfg c s t =
      (false, false, true,
        ⟨updateFirst (fun cc => pyLower cc.name == pyLower (pyTitle (pyStrip c)))
          (setTopics (pyLower (pyStrip s))
            (if "other" ∈ sub.topics
              then insertBefore "other" (pyLower (pyStrip t)) sub.topics
              else sub.topics ++ [pyLower (pyStrip t)]))
          cfg.categories⟩) := by
  simp only [addCategoryHierarchy, hc, hs, if_neg hm]

/-- C3: applying `add_category_hierarchy` twice with the same
(category, subcategory, topic) triple returns
`(category_added, subcategory_added, topic_added) = (false, false, false)` on
the second call, and the second call leaves the configuration exactly as the
first call left it.  (Proved for all inputs, normalized or not, hence in
particular for all normalized taxonomy inputs.) -/
theorem merge_hierarchy_idempotent (cfg : TagsConfig) (c s t : String) :
    addCategoryHierarchy (addCategoryHierarchy cfg c s t).2.2.2 c s t =
      (false, false, false, (addCategoryHierarchy cfg c s t).2.2.2) := by
  have htopidem : pyLower (pyLower (pyStrip t)) = pyLower (pyStrip t) :=
    pyLower_idem _
  cases hc : cfg.categories.find?
      (fun cc => pyLower cc.name == pyLower (pyTitle (pyStrip c))) with
  | none =>
    rw [addCategoryHierarchy_eq_newcat hc]
    have h1 : (cfg.categories ++ [(⟨pyTitle (pyStrip c),
        [⟨pyLower (pyStrip s), freshTopics (pyLower (pyStrip t))⟩]⟩ :
          CategoryConfig)]).find?
        (fun cc => pyLower cc.name == pyLower (pyTitle (pyStrip c))) =
        some ⟨pyTitle (pyStrip c),
          [⟨pyLower (pyStrip s), freshTopics (pyLower (pyStrip t))⟩]⟩ := by
      rw [List.find?_append, hc, Option.none_or]
      exact List.find?_cons_of_pos _ (beq_self_eq_true _)
    have h2 : ([⟨pyLower (pyStrip s), freshTopics (pyLower (pyStrip t))⟩] :
        List SubcategoryConfig).find?
        (fun ss => pyLower ss.name == pyLower (pyLower (pyStrip s))) =
        some ⟨pyLower (pyStrip s), freshTopics (pyLower (pyStrip t))⟩ :=
      List.find?_cons_of_pos _ (beq_self_eq_true _)
    exact addCategoryHierarchy_eq_noop h1 h2 (ntop_mem_freshTopics htopidem)
  | some cat =>
    cases hs : cat.subcategories.find?
        (fun ss => pyLower ss.name == pyLower (pyLower (pyStrip s))) with
    | none =>
      rw [addCategoryHierarchy_eq_newsub hc hs]
      have h1 : (updateFirst
          (fun cc => pyLower cc.name == pyLower (pyTitle (pyStrip c)))
          (appendSub (pyLower (pyStrip s)) (pyLower (pyStrip t)))
          cfg.categories).find?
          (fun cc => pyLower cc.name == pyLower (pyTitle (pyStrip c))) =
          some (appendSub (pyLower (pyStrip s)) (pyLower (pyStrip t)) cat) := by
        rw [find?_updateFirst
          (fun (cc : CategoryConfig) => pyLower cc.name == pyLower (pyTitle (pyStrip c)))
          (appendSub (pyLower (pyStrip s)) (pyLower (pyStrip t)))
          cfg.categories (fun x hx => hx), hc]
        rfl
      have h2 : (appendSub (pyLower (pyStrip s)) (pyLower (pyStrip t))
          cat).subcategories.find?
          (fun ss => pyLower ss.name == pyLower (pyLower (pyStrip s))) =
          some ⟨pyLower (pyStrip s), freshTopics (pyLower (pyStrip t))⟩ := by
        simp only [appendSub]
        rw [List.find?_append, hs, Option.none_or]
        exact List.find?_cons_of_pos _ (beq_self_eq_true _)
      exact addCategoryHierarchy_eq_noop h1 h2 (ntop_mem_freshTopics htopidem)
    | some sub =>
      by_cases hm : pyLower (pyStrip t) ∈ sub.topics.map pyLower
      · rw [addCategoryHierarchy_eq_noop hc hs hm]
        exact addCategoryHierarchy_eq_noop hc hs hm
      · rw [addCategoryHierarchy_eq_newtopic hc hs hm]
        have h1 : (updateFirst
            (fun cc => pyLower cc.name == pyLower (pyTitle (pyStrip c)))
            (setTopics (pyLower (pyStrip s))
              (if "other" ∈ sub.topics
                then insertBefore "other" (pyLower (pyStrip t)) sub.topics
                else sub.topics ++ [pyLower (pyStrip t)]))
            cfg.categories).find?
            (fun cc => pyLower cc.name == pyLower (pyTitle (pyStrip c))) =
            some (setTopics (pyLower (pyStrip s))
              (if "other" ∈ sub.topics
                then insertBefore "other" (pyLower (pyStrip t)) sub.topics
                else sub.topics ++ [pyLower (pyStrip t)]) cat) := by
          rw [find?_updateFirst
            (fun (cc : CategoryConfig) => pyLower cc.name == pyLower (pyTitle (pyStrip c)))
            (setTopics (pyLower (pyStrip s))
              (if "other" ∈ sub.topics
                then insertBefore "other" (pyLower (pyStrip t)) sub.topics
                else sub.topics ++ [pyLower (pyStrip t)]))
            cfg.categories (fun x hx => hx), hc]
          rfl
        have h2 : ((setTopics (pyLower (pyStrip s))
            (if "other" ∈ sub.topics
              then insertBefore "other" (pyLower (pyStrip t)) sub.topics
              else sub.topics ++ [pyLower (pyStrip t)]) cat)).subcategories.find?
            (fun ss => pyLower ss.name == pyLower (pyLower (pyStrip s))) =
            some { sub with topics :=
              if "other" ∈ sub.topics
                then insertBefore "other" (pyLower (pyStrip t)) sub.topics
                else sub.topics ++ [pyLower (pyStrip t)] } := by
          simp only [setTopics]
          rw [find?_updateFirst
            (fun (ss : SubcategoryConfig) => pyLower ss.name == pyLower (pyLower (pyStrip s)))
            (fun ss => { ss with topics :=
              if "other" ∈ sub.topics
                then insertBefore "other" (pyLower (pyStrip t)) sub.topics
                else sub.topics ++ [pyLower (pyStrip t)] })
            cat.subcategories (fun x hx => hx), hs]
          rfl
        have h3 : pyLower (pyStrip t) ∈
            (if "other" ∈ sub.topics
              then insertBefore "other" (pyLower (pyStrip t)) sub.topics
              else sub.topics ++ [pyLower (pyStrip t)]).map pyLower := by
          by_cases ho : "other" ∈ sub.topics
          · rw [if_pos ho]
            exact mem_map_pyLower_of_lowered htopidem (mem_insertBefore_self ho)
          · rw [if_neg ho]
            exact mem_map_pyLower_of_lowered htopidem
              (List.mem_append_right _ (List.mem_cons_self _ _))
        exact addCategoryHierarchy_eq_noop h1 h2 h3

theorem freshTopics_otherLast (ntop : String) : otherLast (freshTopics ntop) := by
  unfold freshTopics
  by_cases hto : ntop = "other"
  · subst hto
    rw [bne_self_eq_false]
    simp only [Bool.false_eq_true, if_false]
    intro _h
    rfl
  · rw [if_pos (bne_iff_ne.mpr hto)]
    intro _h
    rfl

theorem newTopics_otherLast {ts : List String} (ntop : String) (h : otherLast ts) :
    otherLast (if "other" ∈ ts then insertBefore "other" ntop ts
      else ts ++ [ntop]) := by
  by_cases ho : "other" ∈ ts
  · rw [if_pos ho]
    intro _hmem
    rw [getLast?_insertBefore ho]
    exact h ho
  · rw [if_neg ho]
    intro hmem
    rcases List.mem_append.mp hmem with h1 | h2
    · exact absurd h1 ho
    · have h3 : "other" = ntop := List.mem_singleton.mp h2
      rw [List.getLast?_concat, h3]

theorem addCategoryHierarchy_preserves_otherLast (cfg : TagsConfig)
    (c s t : String) (h : configOtherLast cfg) :
    configOtherLast (addCategoryHierarchy cfg c s t).2.2.2 := by
  cases hc : cfg.categories.find?
      (fun cc => pyLower cc.name == pyLower (pyTitle (pyStrip c))) with
  | none =>
    rw [addCategoryHierarchy_eq_newcat hc]
    intro cat hcat sub hsub
    rcases List.mem_append.mp hcat with h1 | h2
    · exact h cat h1 sub hsub
    · have hx : cat = ⟨pyTitle (pyStrip c),
          [⟨pyLower (pyStrip s), freshTopics (pyLower (pyStrip t))⟩]⟩ :=
        List.mem_singleton.mp h2
      subst hx
      have hy : sub = ⟨pyLower (pyStrip s), freshTopics (pyLower (pyStrip t))⟩ :=
        List.mem_singleton.mp hsub
      subst hy
      exact freshTopics_otherLast _
  | some cat0 =>
    cases hs : cat0.subcategories.find?
        (fun ss => pyLower ss.name == pyLower (pyLower (pyStrip s))) with
    | none =>
      rw [addCategoryHierarchy_eq_newsub hc hs]
      intro cat hcat sub hsub
      rcases mem_updateFirst hcat with h1 | ⟨x, hx, rfl⟩
      · exact h cat h1 sub hsub
      · simp only [appendSub] at hsub
        rcases List.mem_append.mp hsub with h2 | h3
        · exact h x hx sub h2
        · have hy : sub = ⟨pyLower (pyStrip s), freshTopics (pyLower (pyStrip t))⟩ :=
            List.mem_singleton.mp h3
          subst hy
          exact freshTopics_otherLast _
    | some sub0 =>
      by_cases hm : pyLower (pyStrip t) ∈ sub0.topics.map pyLower
      · rw [addCategoryHierarchy_eq_noop hc hs hm]
        exact h
      · rw [addCategoryHierarchy_eq_newtopic hc hs hm]
        intro cat hcat sub hsub
        rcases mem_updateFirst hcat with h1 | ⟨x, hx, rfl⟩
        · exact h cat h1 sub hsub
        · simp only [setTopics] at hsub
          rcases mem_updateFirst hsub with h2 | ⟨y, _hy, rfl⟩
          · exact h x hx sub h2
          · have h0 : otherLast sub0.topics :=
              h cat0 (List.mem_of_find?_eq_some hc) sub0
                (List.mem_of_find?_eq_some hs)
            exact newTopics_otherLast (pyLower (pyStrip t)) h0

/-- C4: in every configuration whose topic lists keep the literal topic
`"other"` last wherever it appears, any sequence of `add_category_hierarchy`
calls preserves that invariant: new topics are inserted before `"other"` and
newly created topic lists place `"other"` last, so `"other"` remains the last
entry of every topic list in which it appears. -/
theorem other_remains_last (cfg : TagsConfig)
    (triples : List (String × String × String)) (h : configOtherLast cfg) :
    configOtherLast (mergeAll cfg triples) := by
  induction triples generalizing cfg with
  | nil => exact h
  | cons x xs ih =>
    exact ih _ (addCategoryHierarchy_preserves_otherLast cfg x.1 x.2.1 x.2.2 h)

/-- Witness for C4 at a concrete configuration and call sequence. -/
theorem other_remains_last_witness :
    configOtherLast ⟨[⟨"Design", [⟨"frontend", ["react", "other"]⟩]⟩]⟩ ∧
      configOtherLast (mergeAll ⟨[⟨"Design", [⟨"frontend", ["react", "other"]⟩]⟩]⟩
        [("code", "backend", "api"), ("Design", "frontend", "vue")]) :=
  ⟨by decide, other_remains_last _ _ (by decide)⟩

/-! ### Retry wrapper facts -/

theorem retryGo_ok {ε α : Type} (retryable : ε → Bool) (op : Nat → Except ε α)
    (k : Nat) (a : α) (hsucc : op (k + 1) = .ok a) :
    ∀ r i, (∀ j, i ≤ j → j ≤ k → ∃ e, op j = .error e ∧ retryable e = true) →
      i ≤ k + 1 → k + 1 ≤ i + r →
      retryGo retryable op r i = (.ok a, k + 1) := by
  intro r
  induction r with
  | zero =>
    intro i _hfail hle hub
    have hik : i = k + 1 := by omega
    subst hik
    unfold retryGo
    rw [hsucc]
  | succ r ih =>
    intro i hfail hle hub
    by_cases hik : i = k + 1
    · subst hik
      unfold retryGo
      rw [hsucc]
    · have hik2 : i ≤ k := by omega
      obtain ⟨e, he, hre⟩ := hfail i (le_refl i) hik2
      unfold retryGo
      simp only [he]
      rw [if_pos hre]
      exact ih (i + 1) (fun j hj1 hj2 => hfail j (by omega) hj2)
        (by omega) (by omega)

theorem retryGo_exhaust {ε α : Type} (retryable : ε → Bool)
    (op : Nat → Except ε α) (err : Nat → ε) :
    ∀ r i,
      (∀ j, i ≤ j → j ≤ i + r → op j = .error (err j) ∧ retryable (err j) = true) →
      retryGo retryable op r i = (.error (err (i + r)), i + r) := by
  intro r
  induction r with
  | zero =>
    intro i hfail
    obtain ⟨he, hre⟩ := hfail i (le_refl i) (by omega)
    unfold retryGo
    simp only [he]
    rw [if_pos hre]
    simp
  | succ r ih =>
    intro i hfail
    obtain ⟨he, hre⟩ := hfail i (le_refl i) (by omega)
    unfold retryGo
    simp only [he]
    rw [if_pos hre]
    have hrec := ih (i + 1) (fun j hj1 hj2 => hfail j (by omega) (by omega))
    have harith : i + 1 + r = i + (r + 1) := by omega
    rw [harith] at hrec
    exact hrec

/-- C6: behavior of the `with_retry` wrapper with `max_attempts = m` and a
retryable-exception allowlist.  (1) An operation failing with retryable
exceptions on attempts `1..k` and succeeding on attempt `k+1 ≤ m` is invoked
exactly `k+1` times and the wrapper returns the success value.  (2) An
operation failing with a non-retryable exception is invoked exactly once and
that exception propagates.  (3) After `m` retryable failures, the last
(`m`-th) exception is re-raised unchanged. -/
theorem with_retry_spec {ε α : Type} (retryable : ε → Bool) :
    (∀ (op : Nat → Except ε α) (m k : Nat) (a : α),
      (∀ j, 1 ≤ j → j ≤ k → ∃ e, op j = .error e ∧ retryable e = true) →
      op (k + 1) = .ok a → k + 1 ≤ m →
      withRetry m retryable op = (.ok a, k + 1)) ∧
    (∀ (op : Nat → Except ε α) (m : Nat) (e : ε),
      op 1 = .error e → retryable e = false → 1 ≤ m →
      withRetry m retryable op = (.error e, 1)) ∧
    (∀ (op : Nat → Except ε α) (m : Nat) (err : Nat → ε),
      1 ≤ m →
      (∀ j, 1 ≤ j → j ≤ m → op j = .error (err j) ∧ retryable (err j) = true) →
      withRetry m retryable op = (.error (err m), m)) := by
  refine ⟨?_, ?_, ?_⟩
  · intro op m k a hfail hsucc hm
    unfold withRetry
    exact retryGo_ok retryable op k a hsucc (m - 1) 1
      (fun j hj1 hj2 => hfail j hj1 hj2) (by omega) (by omega)
  · intro op m e hop hre _hm
    unfold withRetry
    unfold retryGo
    simp only [hop]
    rw [if_neg (by rw [hre]; exact Bool.false_ne_true)]
  · intro op m err hm hfail
    unfold withRetry
    have hrec := retryGo_exhaust retryable op err (m - 1) 1
      (fun j hj1 hj2 => hfail j hj1 (by omega))
    have harith : 1 + (m - 1) = m := by omega
    rw [harith] at hrec
    exact hrec

/-- Witness for C6 at concrete operations: two retryable failures then
success (3 invocations, success returned); a non-retryable failure
(1 invocation, error propagated); three retryable failures with
`max_attempts = 3` (last error re-raised after 3 invocations). -/
theorem with_retry_spec_witness :
    withRetry 3 (fun (_ : String) => true)
        (fun i => if i ≤ 2 then .error "boom" else .ok 7) = (.ok 7, 3) ∧
      withRetry 3 (fun (_ : String) => false)
        (fun _ => (.error "fatal" : Except String Nat)) = (.error "fatal", 1) ∧
      withRetry 3 (fun (_ : String) => true)
        (fun _ => (.error "transient" : Except String Nat)) =
        (.error "transient", 3) := by
  refine ⟨?_, ?_, ?_⟩
  · exact (with_retry_spec (fun _ => true)).1 _ 3 2 7
      (fun j _hj1 hj2 => ⟨"boom", by rw [if_pos hj2], rfl⟩) rfl (by omega)
  · exact (with_retry_spec (fun _ => false)).2.1 _ 3 "fatal" rfl rfl (by omega)
  · exact (with_retry_spec (fun _ => true)).2.2 _ 3 (fun _ => "transient")
      (by omega) (fun j _ _ => ⟨rfl, rfl⟩)

/-! ### Response-parser facts -/

/-- C9 counterexample: on the degraded (JSON-parse-failure) path the
caller-supplied default classification values are returned verbatim, with no
Title-Case re-normalization: with `default_category = "misc"` the final
category is `"misc"`, whereas its Title-Case normalization is `"Misc"`.  So
the claim that every parse path yields a Title-Case-normalized final
category fails. -/
theorem parse_degraded_defaults_not_normalized :
    parseExtractionResponse (fun _ => none) "oops" "misc" "general" "general" =
        .ok ⟨"oops", "Failed to parse structured response", "Extraction Result",
          "misc", "general", "general", false, false, false⟩ ∧
      pyTitle (pyStrip "misc") = "Misc" ∧ ("misc" : String) ≠ "Misc" := by
  refine ⟨rfl, rfl, by decide⟩

/-- C9 (amended): (1) on JSON-parse failure the parser returns a degraded
result carrying the raw response text, the fixed placeholder paraphrase and
title, the caller-supplied defaults verbatim (not re-normalized), and all
`is_new` flags false; (2) on the structured (pydantic-validated) path the
final category is Title-Case normalized and subcategory/topic are lowercase
normalized; (3) on the legacy/manual path the same normalization is applied
to every non-empty resolved value (the empty string passes through the
`if category:` guard unchanged). -/
theorem parse_extraction_response_spec :
    (∀ (jsonLoads : String → Option JsonValue) (text dc ds dt : String),
      jsonLoads (stripCodeFences (pyStrip text)) = none →
      parseExtractionResponse jsonLoads text dc ds dt =
        .ok ⟨text, "Failed to parse structured response", "Extraction Result",
          dc, ds, dt, false, false, false⟩) ∧
    (∀ (jsonLoads : String → Option JsonValue) (text dc ds dt : String)
        (data : JsonValue) (v : ExtractionResponse),
      jsonLoads (stripCodeFences (pyStrip text)) = some data →
      validateExtractionResponse data = some v →
      parseExtractionResponse jsonLoads text dc ds dt =
        .ok ⟨v.raw_data, dumpParaphrased v.paraphrased_data, v.title,
          pyTitle (pyStrip v.category.value),
          pyLower (pyStrip v.subcategory.value),
          pyLower (pyStrip v.topic.value),
          v.category.is_new, v.subcategory.is_new, v.topic.is_new⟩) ∧
    (∀ (jsonLoads : String → Option JsonValue) (text dc ds dt : String)
        (fields : List (String × JsonValue)) (cv sv tv : String × Bool),
      jsonLoads (stripCodeFences (pyStrip text)) = some (.obj fields) →
      validateExtractionResponse (.obj fields) = none →
      extractClassField fields "category" dc = .ok cv →
      extractClassField fields "subcategory" ds = .ok sv →
      extractClassField fields "topic" dt = .ok tv →
      parseExtractionResponse jsonLoads text dc ds dt =
        .ok ⟨manualRaw fields, manualParaphrased fields, manualTitle fields,
          if cv.1 ≠ "" then pyTitle (pyStrip cv.1) else cv.1,
          if sv.1 ≠ "" then pyLower (pyStrip sv.1) else sv.1,
          if tv.1 ≠ "" then pyLower (pyStrip tv.1) else tv.1,
          cv.2, sv.2, tv.2⟩) := by
  refine ⟨?_, ?_, ?_⟩
  · intro jl text dc ds dt h
    simp only [parseExtractionResponse, h]
  · intro jl text dc ds dt data v h1 h2
    simp only [parseExtractionResponse, h1, h2]
  · intro jl text dc ds dt fields cv sv tv h1 h2 hc hs ht
    simp only [parseExtractionResponse, h1, h2, manualParse, hc, hs, ht]

/-- Witness for the amended C9 at concrete inputs: a parse failure with
unparseable text; a conforming structured response (category Title-Cased,
subcategory/topic lowercased); and a legacy response carrying a bare-string
category that fails schema validation and goes through the manual path. -/
theorem parse_extraction_response_spec_witness :
    parseExtractionResponse (fun _ => none) "not json" "Misc" "general"
        "general" =
      .ok ⟨"not json", "Failed to parse structured response",
        "Extraction Result", "Misc", "general", "general",
        false, false, false⟩ ∧
      parseExtractionResponse
        (fun _ => some (.obj [("raw_data", .str "R"), ("title", .str "T"),
          ("paraphrased_data", .obj [("summary", .str "S"),
            ("details", .arr [])]),
          ("category", .obj [("value", .str " design "), ("is_new", .bool true)]),
          ("subcategory", .obj [("value", .str " Frontend ")]),
          ("topic", .obj [("value", .str "API")])]))
        "x" "Misc" "general" "general" =
      .ok ⟨"R", "\x7b\"summary\":\"S\",\"details\":[]\x7d", "T",
        "Design", "frontend", "api", true, false, false⟩ ∧
      parseExtractionResponse
        (fun _ => some (.obj [("category", .str "code")]))
        "y" "Misc" "general" "general" =
      .ok ⟨"", "", "Untitled", "Code", "general", "general",
        false, false, false⟩ := by
  refine ⟨?_, ?_, ?_⟩
  · exact parse_extraction_response_spec.1 (fun _ => none) "not json"
      "Misc" "general" "general" rfl
  · exact parse_extraction_response_spec.2.1 _ "x" "Misc" "general" "general"
      _ ⟨"R", ⟨"S", []⟩, "T", ⟨" design ", true⟩, ⟨" Frontend ", false⟩,
        ⟨"API", false⟩⟩ rfl rfl
  · exact parse_extraction_response_spec.2.2
      (fun _ => some (.obj [("category", .str "code")]))
      "y" "Misc" "general" "general"
      [("category", .str "code")] ("code", false) ("general", false)
      ("general", false) rfl rfl rfl rfl rfl

/-- C7: the code retries authentication and bad-request failures of the
embedding call.  `generate_embedding` wraps `openai.AuthenticationError` and
`openai.BadRequestError` in `EmbeddingError` — the very class in its
`with_retry` allowlist — so a persistent authentication (or bad-request)
failure is attempted all 3 times instead of failing fast on the first
attempt, contradicting the code's own "Not retryable - fail immediately"
comments and the spec.  Rate-limit failures are retried (conforming), and
the extraction path does fail fast on authentication because it raises
`LLMConfigurationError`, which is outside its `(ExtractionError,)`
allowlist. -/
theorem auth_error_retried_in_embedding :
    generateEmbedding false (fun _ => []) (fun _ => .error .authentication)
        "hello" = (.error (.embeddingError "Authentication failed"), 3) ∧
      generateEmbedding false (fun _ => []) (fun _ => .error .badRequest)
        "hello" = (.error (.embeddingError "Invalid request"), 3) ∧
      generateEmbedding false (fun _ => [])
        (fun i => if i < 3 then .error .rateLimit else .ok [1]) "hello" =
        (.ok [1], 3) ∧
      extractContentOpenAI (fun _ => none) (fun _ => .error .authentication) =
        (.error (.llmConfigurationError "Authentication failed"), 1) := by
  refine ⟨rfl, rfl, rfl, rfl⟩

/-! ### Record store facts -/

theorem applyUpdateStatus_id (s : KnowledgeStatus) (e c : Option String)
    (i : Bool) (r : Knowledge) : (applyUpdateStatus s e c i r).id = r.id := rfl

theorem applyUpdateStatus_image (s : KnowledgeStatus) (e c : Option String)
    (i : Bool) (r : Knowledge) : (applyUpdateStatus s e c i r).image = r.image := rfl

theorem applyUpdateWithExtraction_id (a b c d e f : String) (emb : List Int)
    (r : Knowledge) : (applyUpdateWithExtraction a b c d e f emb r).id = r.id := rfl

theorem applyUpdateWithExtraction_image (a b c d e f : String) (emb : List Int)
    (r : Knowledge) :
    (applyUpdateWithExtraction a b c d e f emb r).image = r.image := rfl

theorem applyReset_id (r : Knowledge) : (applyReset r).id = r.id := rfl

theorem applyReset_image (r : Knowledge) : (applyReset r).image = r.image := rfl

theorem find?_cons_pos {α : Type} (p : α → Bool) (a : α) (l : List α)
    (h : p a = true) : (a :: l).find? p = some a :=
  List.find?_cons_of_pos l h

theorem find?_cons_neg {α : Type} (p : α → Bool) (a : α) (l : List α)
    (h : p a = false) : (a :: l).find? p = l.find? p :=
  List.find?_cons_of_neg l (by simp [h])

theorem updateRecord_cons (db : List Knowledge) (r : Knowledge) (id : Nat)
    (f : Knowledge → Knowledge) :
    updateRecord (r :: db) id f =
      (if (r.id == id) = true then f r else r) :: updateRecord db id f := rfl

theorem getById_updateRecord_self (db : List Knowledge) (id : Nat)
    (f : Knowledge → Knowledge) (hf : ∀ r, (f r).id = r.id) :
    getById (updateRecord db id f) id = (getById db id).map f := by
  induction db with
  | nil => rfl
  | cons r rs ih =>
    rw [updateRecord_cons]
    by_cases hr : (r.id == id) = true
    · rw [if_pos hr]
      unfold getById
      rw [find?_cons_pos (fun k => k.id == id) (f r) _ (by simp [hf r, hr]),
          find?_cons_pos (fun k => k.id == id) r _ hr]
      rfl
    · rw [if_neg hr]
      unfold getById at ih ⊢
      rw [find?_cons_neg (fun k => k.id == id) r _ (by simpa using hr),
          find?_cons_neg (fun k => k.id == id) r _ (by simpa using hr)]
      exact ih

theorem getById_updateRecord_ne (db : List Knowledge) (id : Nat)
    (f : Knowledge → Knowledge) (hf : ∀ r, (f r).id = r.id) (rid : Nat)
    (hne : rid ≠ id) :
    getById (updateRecord db id f) rid = getById db rid := by
  induction db with
  | nil => rfl
  | cons r rs ih =>
    rw [updateRecord_cons]
    unfold getById at ih ⊢
    by_cases hr : (r.id == id) = true
    · rw [if_pos hr]
      have hrid : r.id = id := by simpa using hr
      have h1 : ((f r).id == rid) = false := by
        rw [hf r, hrid]
        simp [Ne.symm hne]
      have _hu : True := trivial
      have h2 : (r.id == rid) = false := by
        rw [hrid]
        simp [Ne.symm hne]
      rw [find?_cons_neg (fun k => k.id == rid) (f r) _ h1,
          find?_cons_neg (fun k => k.id == rid) r _ h2]
      exact ih
    · rw [if_neg hr]
      by_cases hr2 : (r.id == rid) = true
      · rw [find?_cons_pos (fun k => k.id == rid) r _ hr2,
            find?_cons_pos (fun k => k.id == rid) r _ hr2]
      · rw [find?_cons_neg (fun k => k.id == rid) r _ (by simpa using hr2),
            find?_cons_neg (fun k => k.id == rid) r _ (by simpa using hr2)]
        exact ih

theorem getByImage_updateRecord (db : List Knowledge) (id : Nat)
    (f : Knowledge → Knowledge) (hf : ∀ r, (f r).image = r.image)
    (img : String) :
    getByImage (updateRecord db id f) img =
      (getByImage db img).map (fun r => if (r.id == id) = true then f r else r) := by
  induction db with
  | nil => rfl
  | cons r rs ih =>
    rw [updateRecord_cons]
    unfold getByImage at ih ⊢
    by_cases hr : (r.id == id) = true
    · rw [if_pos hr]
      by_cases hi : (r.image == img) = true
      · rw [find?_cons_pos (fun k => k.image == img) (f r) _ (by simp [hf r]; simpa using hi),
            find?_cons_pos (fun k => k.image == img) r _ hi]
        have hid : r.id = id := by simpa using hr
        simp [hid]
      · rw [find?_cons_neg (fun k => k.image == img) (f r) _
            (by simp [hf r]; simpa using hi),
            find?_cons_neg (fun k => k.image == img) r _ (by simpa using hi)]
        exact ih
    · rw [if_neg hr]
      by_cases hi : (r.image == img) = true
      · rw [find?_cons_pos (fun k => k.image == img) r _ hi,
            find?_cons_pos (fun k => k.image == img) r _ hi]
        have hid : r.id ≠ id := by simpa using hr
        simp [hid]
      · rw [find?_cons_neg (fun k => k.image == img) r _ (by simpa using hi),
            find?_cons_neg (fun k => k.image == img) r _ (by simpa using hi)]
        exact ih

theorem updateRecord_map_id (db : List Knowledge) (id : Nat)
    (f : Knowledge → Knowledge) (hf : ∀ r, (f r).id = r.id) :
    (updateRecord db id f).map (fun r => r.id) = db.map (fun r => r.id) := by
  induction db with
  | nil => rfl
  | cons r rs ih =>
    rw [updateRecord_cons, List.map_cons, List.map_cons, ih]
    by_cases hr : (r.id == id) = true
    · rw [if_pos hr, hf r]
    · rw [if_neg hr]

theorem getById_of_mem {db : List Knowledge}
    (hnodup : (db.map (fun r => r.id)).Nodup) {r : Knowledge} (hr : r ∈ db) :
    getById db r.id = some r := by
  induction db with
  | nil => cases hr
  | cons a l ih =>
    rw [List.map_cons, List.nodup_cons] at hnodup
    rcases List.mem_cons.mp hr with rfl | h2
    · unfold getById
      rw [find?_cons_pos (fun k => k.id == r.id) r _ (by simp)]
    · have hane : (a.id == r.id) = false := by
        have : a.id ≠ r.id := by
          intro heq
          exact hnodup.1 (heq ▸ List.mem_map_of_mem (fun k => k.id) h2)
        simp [this]
      unfold getById at ih ⊢
      rw [find?_cons_neg (fun k => k.id == r.id) a _ hane]
      exact ih hnodup.2 h2

theorem getById_eq_some_id {db : List Knowledge} {rid : Nat} {r : Knowledge}
    (h : getById db rid = some r) : r.id = rid := by
  have := List.find?_some h
  simpa using this

theorem getByImage_eq_some_image {db : List Knowledge} {img : String}
    {r : Knowledge} (h : getByImage db img = some r) : r.image = img := by
  have := List.find?_some h
  simpa using this

/-- C1: when a source identifier already has a `COMPLETED` record, both
single-source ingestion entry points return that record's id and leave the
whole orchestrator state untouched: the stored record is unchanged, no
reprocessing happens, and the Extraction / Embedding invocation counters do
not move (`ingest_from_bytes` still re-validates the supplied bytes before
the short-circuit). -/
theorem completed_ingest_short_circuits :
    (∀ (env : PipelineEnv) (st : OrchestratorState) (url : String)
        (r : Knowledge), getByImage st.db url = some r →
      r.status = .completed → ingestFromUrl env st url = (r.id, st)) ∧
    (∀ (env : PipelineEnv) (st : OrchestratorState) (imageBytes : List Nat)
        (src name : String) (r : Knowledge),
      validateImage imageBytes = .ok () → getByImage st.db src = some r →
      r.status = .completed →
      ingestFromBytes env st imageBytes src name = .ok (r.id, st)) := by
  constructor
  · intro env st url r hfound hstatus
    simp only [ingestFromUrl, hfound, if_pos hstatus]
  · intro env st imageBytes src name r hval hfound hstatus
    simp only [ingestFromBytes, hval, hfound, if_pos hstatus]

/-- Witness for C1: a store holding one `COMPLETED` record for source
`"done.png"`; even with an environment whose every external call fails, both
entry points return id 0 and the state unchanged. -/
theorem completed_ingest_short_circuits_witness :
    ingestFromUrl
        ⟨fun _ => .error "down", fun _ => .error "down",
          fun _ _ => .error "down", fun _ => .error "down"⟩
        ⟨[⟨0, "Code", "backend", "api", "T", "R", "P", "done.png", "",
          .completed, none, none, 0, some [1]⟩], 1, ⟨[]⟩, 0, 0⟩ "done.png" =
      (0, ⟨[⟨0, "Code", "backend", "api", "T", "R", "P", "done.png", "",
        .completed, none, none, 0, some [1]⟩], 1, ⟨[]⟩, 0, 0⟩) ∧
      ingestFromBytes
        ⟨fun _ => .error "down", fun _ => .error "down",
          fun _ _ => .error "down", fun _ => .error "down"⟩
        ⟨[⟨0, "Code", "backend", "api", "T", "R", "P", "done.png", "",
          .completed, none, none, 0, some [1]⟩], 1, ⟨[]⟩, 0, 0⟩
        [0x89, 0x50, 0x4e, 0x47, 0x0d, 0x0a, 0x1a, 0x0a] "done.png" "f.png" =
      .ok (0, ⟨[⟨0, "Code", "backend", "api", "T", "R", "P", "done.png", "",
        .completed, none, none, 0, some [1]⟩], 1, ⟨[]⟩, 0, 0⟩) := by
  constructor
  · exact completed_ingest_short_circuits.1
      ⟨fun _ => .error "down", fun _ => .error "down",
        fun _ _ => .error "down", fun _ => .error "down"⟩
      ⟨[⟨0, "Code", "backend", "api", "T", "R", "P", "done.png", "",
        .completed, none, none, 0, some [1]⟩], 1, ⟨[]⟩, 0, 0⟩ "done.png"
      ⟨0, "Code", "backend", "api", "T", "R", "P", "done.png", "",
        .completed, none, none, 0, some [1]⟩ rfl rfl
  · exact completed_ingest_short_circuits.2
      ⟨fun _ => .error "down", fun _ => .error "down",
        fun _ _ => .error "down", fun _ => .error "down"⟩
      ⟨[⟨0, "Code", "backend", "api", "T", "R", "P", "done.png", "",
        .completed, none, none, 0, some [1]⟩], 1, ⟨[]⟩, 0, 0⟩
      [0x89, 0x50, 0x4e, 0x47, 0x0d, 0x0a, 0x1a, 0x0a] "done.png" "f.png"
      ⟨0, "Code", "backend", "api", "T", "R", "P", "done.png", "",
        .completed, none, none, 0, some [1]⟩ rfl rfl rfl

/-! ### The embedding-presence invariant (C2) -/

theorem orchTransition_preserves_embeddingInvariant {r r2 : Knowledge}
    (h : EmbeddingInvariant r) (t : OrchTransition r r2) :
    EmbeddingInvariant r2 := by
  unfold EmbeddingInvariant at h ⊢
  cases t with
  | processingStart hs =>
    have hemb : r.embedding = none := by
      by_contra hne
      have := h.mp hne
      rw [hs] at this
      cases this
    simp [applyUpdateStatus, hemb]
  | retryToPending hs =>
    have hemb : r.embedding = none := by
      by_contra hne
      have := h.mp hne
      rw [hs] at this
      cases this
    simp [applyUpdateStatus, hemb]
  | pipelineFailure e c hs =>
    have hemb : r.embedding = none := by
      by_contra hne
      exact hs (h.mp hne)
    simp [applyUpdateStatus, hemb]
  | extractionComplete raw par ttl cat sub top emb hs =>
    simp [applyUpdateWithExtraction]
  | reprocessReset hs =>
    simp [applyReset]

/-- C2: every knowledge record reachable, via the orchestrator-issued store
operations (create, reset_for_reprocessing, update_status as the
orchestrator calls it, update_with_extraction), from a freshly created
record satisfies: the embedding is non-null if and only if the status is
`COMPLETED` — after every transition of the
PENDING/PROCESSING/COMPLETED/FAILED state machine. -/
theorem embedding_iff_completed (r0 r : Knowledge)
    (hinit : ∃ id image url title, r0 = newKnowledge id image url title)
    (hreach : Relation.ReflTransGen OrchTransition r0 r) :
    EmbeddingInvariant r := by
  induction hreach with
  | refl =>
    obtain ⟨id, image, url, title, rfl⟩ := hinit
    unfold EmbeddingInvariant newKnowledge
    simp
  | tail _hsteps t ih => exact orchTransition_preserves_embeddingInvariant ih t

/-- Witness for C2: the freshly created record for source `"img"`, driven
`PENDING → PROCESSING → COMPLETED` by the orchestrator's operations,
satisfies the invariant at the end (and `decide` confirms it concretely). -/
theorem embedding_iff_completed_witness :
    EmbeddingInvariant (applyUpdateWithExtraction "R" "P" "T" "Code" "backend"
      "api" [1] (applyUpdateStatus .processing none none false
        (newKnowledge 0 "img" "img" ""))) :=
  embedding_iff_completed _ _ ⟨0, "img", "img", "", rfl⟩
    (Relation.ReflTransGen.tail
      (Relation.ReflTransGen.tail Relation.ReflTransGen.refl
        (OrchTransition.processingStart _ rfl))
      (OrchTransition.extractionComplete _ "R" "P" "T" "Code" "backend" "api"
        [1] rfl))

/-! ### Behavior of one pipeline run on a found record -/

theorem processRecord_spec (env : PipelineEnv) (st : OrchestratorState)
    (rid : Nat) (rr : Knowledge) (hfound : getById st.db rid = some rr) :
    ∃ ok st2 r2, processRecord env st rid = (ok, st2) ∧
      getById st2.db rid = some r2 ∧ r2.id = rr.id ∧ r2.image = rr.image ∧
      st2.db.map (fun k => k.id) = st.db.map (fun k => k.id) ∧
      (∀ rid2, rid2 ≠ rid → getById st2.db rid2 = getById st.db rid2) ∧
      ((ok = true ∧ r2.status = .completed ∧ r2.last_error = none ∧
          r2.retry_count = rr.retry_count ∧ r2.comments = rr.comments ∧
          r2.embedding ≠ none) ∨
        (ok = false ∧ r2.status = .failed ∧
          r2.retry_count = rr.retry_count + 1)) ∧
      (PipelineSucceedsOn env rr.image → ok = true) ∧
      (FailsValidationOn env rr.image → ok = false) := by
  have h1 : getById (updateStatusDb st.db rid .processing none none false) rid =
      some (applyUpdateStatus .processing none none false rr) := by
    unfold updateStatusDb
    rw [getById_updateRecord_self st.db rid
      (applyUpdateStatus .processing none none false) (fun r => rfl), hfound]
    rfl
  have hstep : ∀ (g : Knowledge → Knowledge), (∀ r, (g r).id = r.id) →
      getById (updateRecord (updateStatusDb st.db rid .processing none none
        false) rid g) rid =
        some (g (applyUpdateStatus .processing none none false rr)) := by
    intro g hg
    rw [getById_updateRecord_self _ _ _ hg, h1]
    rfl
  have hmap : ∀ (g : Knowledge → Knowledge), (∀ r, (g r).id = r.id) →
      (updateRecord (updateStatusDb st.db rid .processing none none false)
        rid g).map (fun k => k.id) = st.db.map (fun k => k.id) := by
    intro g hg
    unfold updateStatusDb
    rw [updateRecord_map_id _ _ _ hg, updateRecord_map_id st.db rid
      (applyUpdateStatus .processing none none false) (fun r => rfl)]
  have hframe : ∀ (g : Knowledge → Knowledge), (∀ r, (g r).id = r.id) →
      ∀ rid2, rid2 ≠ rid →
      getById (updateRecord (updateStatusDb st.db rid .processing none none
        false) rid g) rid2 = getById st.db rid2 := by
    intro g hg rid2 hne
    unfold updateStatusDb
    rw [getById_updateRecord_ne _ _ _ hg _ hne,
      getById_updateRecord_ne st.db rid
        (applyUpdateStatus .processing none none false) (fun r => rfl) _ hne]
  simp only [processRecord, h1, applyUpdateStatus_image]
  cases hfetch : fetchImage env rr.image with
  | error e =>
    simp only [hfetch]
    refine ⟨false, _, _, rfl, hstep _ (fun r => rfl), rfl, rfl,
      hmap _ (fun r => rfl), hframe _ (fun r => rfl),
      Or.inr ⟨rfl, rfl, rfl⟩, ?_, fun _ => rfl⟩
    rintro ⟨bytes, hb, -⟩
    rw [hfetch] at hb
    cases hb
  | ok bytes =>
    simp only [hfetch]
    cases hval : validateImage bytes with
    | error e =>
      simp only [hval]
      refine ⟨false, _, _, rfl, hstep _ (fun r => rfl), rfl, rfl,
        hmap _ (fun r => rfl), hframe _ (fun r => rfl),
        Or.inr ⟨rfl, rfl, rfl⟩, ?_, fun _ => rfl⟩
      rintro ⟨bytes2, hb2, hv2, -⟩
      rw [hfetch] at hb2
      cases hb2
      rw [hval] at hv2
      cases hv2
    | ok u =>
      cases u
      simp only [hval]
      cases hext : env.extract bytes st.tags with
      | error e =>
        simp only [hext]
        refine ⟨false, _, _, rfl, hstep _ (fun r => rfl), rfl, rfl,
          hmap _ (fun r => rfl), hframe _ (fun r => rfl),
          Or.inr ⟨rfl, rfl, rfl⟩, ?_, fun _ => rfl⟩
        rintro ⟨bytes2, hb2, -, hrest⟩
        rw [hfetch] at hb2
        cases hb2
        obtain ⟨ex, emb, hexok, -⟩ := hrest st.tags
        rw [hext] at hexok
        cases hexok
      | ok extraction =>
        simp only [hext]
        by_cases hnew : (extraction.is_new_category ||
            extraction.is_new_subcategory || extraction.is_new_topic) = true
        · simp only [hnew, if_true]
          cases hemb : env.embed extraction.raw_data with
          | error e =>
            simp only [hemb]
            refine ⟨false, _, _, rfl, hstep _ (fun r => rfl), rfl, rfl,
              hmap _ (fun r => rfl), hframe _ (fun r => rfl),
              Or.inr ⟨rfl, rfl, rfl⟩, ?_, fun _ => rfl⟩
            rintro ⟨bytes2, hb2, -, hrest⟩
            rw [hfetch] at hb2
            cases hb2
            obtain ⟨ex2, emb2, hexok, hembok⟩ := hrest st.tags
            rw [hext] at hexok
            cases hexok
            rw [hemb] at hembok
            cases hembok
          | ok emb =>
            simp only [hemb]
            refine ⟨true, _, _, rfl, hstep _ (fun r => rfl), rfl, rfl,
              hmap _ (fun r => rfl), hframe _ (fun r => rfl),
              Or.inl ⟨rfl, rfl, rfl, rfl, rfl, by simp [applyUpdateWithExtraction]⟩, fun _ => rfl, ?_⟩
            rintro ⟨bytes2, hb2, e2, hv2⟩
            rw [hfetch] at hb2
            cases hb2
            rw [hval] at hv2
            cases hv2
        · simp only [hnew, if_false]
          cases hemb : env.embed extraction.raw_data with
          | error e =>
            simp only [hemb]
            refine ⟨false, _, _, rfl, hstep _ (fun r => rfl), rfl, rfl,
              hmap _ (fun r => rfl), hframe _ (fun r => rfl),
              Or.inr ⟨rfl, rfl, rfl⟩, ?_, fun _ => rfl⟩
            rintro ⟨bytes2, hb2, -, hrest⟩
            rw [hfetch] at hb2
            cases hb2
            obtain ⟨ex2, emb2, hexok, hembok⟩ := hrest st.tags
            rw [hext] at hexok
            cases hexok
            rw [hemb] at hembok
            cases hembok
          | ok emb =>
            simp only [hemb]
            refine ⟨true, _, _, rfl, hstep _ (fun r => rfl), rfl, rfl,
              hmap _ (fun r => rfl), hframe _ (fun r => rfl),
              Or.inl ⟨rfl, rfl, rfl, rfl, rfl, by simp [applyUpdateWithExtraction]⟩, fun _ => rfl, ?_⟩
            rintro ⟨bytes2, hb2, e2, hv2⟩
            rw [hfetch] at hb2
            cases hb2
            rw [hval] at hv2
            cases hv2

/-! ### C8: re-submission of a FAILED source -/

/-- C8 counterexample: the claim says re-submission preserves `retry_count`
from before the reset, but `reset_for_reprocessing` zeroes it.  A `FAILED`
record with `retry_count = 1` re-submitted through `ingest_from_url` in a
fully succeeding environment ends `COMPLETED` with `retry_count = 0`, not
1. -/
theorem resubmission_zeroes_retry_count :
    failedURecord.retry_count = 1 ∧
      (ingestFromUrl happyEnv ⟨[failedURecord], 1, ⟨[]⟩, 0, 0⟩ "u").1 = 0 ∧
      (getById (ingestFromUrl happyEnv
          ⟨[failedURecord], 1, ⟨[]⟩, 0, 0⟩ "u").2.db 0).map
        (fun r => r.retry_count) = some 0 ∧
      (0 : Nat) ≠ 1 := by
  refine ⟨rfl, rfl, rfl, by decide⟩

/-- C8 (amended): re-submitting a source whose record is `FAILED` through
`ingest_from_url` reprocesses the same record: the returned id equals the
existing id, the reset clears `last_error` and zeroes `retry_count` (it is
not preserved), and `retry_count` is incremented from zero — ending at 1 —
only if the new processing run fails; on success it stays 0 with
`last_error` cleared. -/
theorem failed_resubmission_resets (env : PipelineEnv) (st : OrchestratorState)
    (url : String) (r : Knowledge)
    (hnodup : (st.db.map (fun k => k.id)).Nodup)
    (hfound : getByImage st.db url = some r) (hfailed : r.status = .failed) :
    ∃ st2 r2, ingestFromUrl env st url = (r.id, st2) ∧
      getById st2.db r.id = some r2 ∧ r2.id = r.id ∧
      (r2.status = .completed ∨ r2.status = .failed) ∧
      (r2.status = .completed → r2.retry_count = 0 ∧ r2.last_error = none) ∧
      (r2.status = .failed → r2.retry_count = 1) := by
  have hmem : r ∈ st.db := List.mem_of_find?_eq_some hfound
  have hbyid : getById st.db r.id = some r := getById_of_mem hnodup hmem
  have h1 : getById (updateRecord st.db r.id applyReset) r.id =
      some (applyReset r) := by
    rw [getById_updateRecord_self st.db r.id applyReset (fun k => rfl), hbyid]
    rfl
  obtain ⟨ok, st2, r2, hrun, hget, hid, _himg, _hmap, _hfr, hdisj, _, _⟩ :=
    processRecord_spec env
      { st with db := updateRecord st.db r.id applyReset } r.id
      (applyReset r) h1
  have hncompleted : ¬ r.status = KnowledgeStatus.completed := by
    rw [hfailed]
    intro h
    cases h
  refine ⟨st2, r2, ?_, hget, hid, ?_, ?_, ?_⟩
  · simp only [ingestFromUrl, hfound, if_neg hncompleted]
    rw [hrun]
  · rcases hdisj with ⟨-, hst, -⟩ | ⟨-, hst, -⟩
    · exact Or.inl hst
    · exact Or.inr hst
  · intro hc
    rcases hdisj with ⟨-, -, herr, hretry, -, -⟩ | ⟨-, hst, -⟩
    · exact ⟨hretry, herr⟩
    · rw [hc] at hst
      cases hst
  · intro hf
    rcases hdisj with ⟨-, hst, -⟩ | ⟨-, -, hretry⟩
    · rw [hf] at hst
      cases hst
    · exact hretry

/-- Witness for the amended C8 at the concrete failed record. -/
theorem failed_resubmission_resets_witness :
    ∃ st2 r2,
      ingestFromUrl happyEnv ⟨[failedURecord], 1, ⟨[]⟩, 0, 0⟩ "u" =
        (failedURecord.id, st2) ∧
      getById st2.db failedURecord.id = some r2 ∧ r2.id = failedURecord.id ∧
      (r2.status = .completed ∨ r2.status = .failed) ∧
      (r2.status = .completed → r2.retry_count = 0 ∧ r2.last_error = none) ∧
      (r2.status = .failed → r2.retry_count = 1) :=
  failed_resubmission_resets happyEnv ⟨[failedURecord], 1, ⟨[]⟩, 0, 0⟩ "u"
    failedURecord (by decide) rfl rfl

/-! ### C10: stale failure comments survive retry to completion -/

/-- C10: `update_with_extraction` never touches `comments`, and
`retry_record` resets only status and `last_error`; so a `FAILED` record
carrying a failure-attribution comment that is retried to a successful
completion remains `COMPLETED` with the stale comment still in place (and
`last_error` cleared). -/
theorem retry_keeps_stale_comment (env : PipelineEnv) (st : OrchestratorState)
    (rid : Nat) (r : Knowledge) (c : String)
    (hfound : getById st.db rid = some r) (hfailed : r.status = .failed)
    (hcomm : r.comments = some c)
    (hsucc : PipelineSucceedsOn env r.image) :
    ∃ st2 r2, retryRecord env st rid = .ok (true, st2) ∧
      getById st2.db rid = some r2 ∧ r2.status = .completed ∧
      r2.comments = some c ∧ r2.last_error = none ∧ r2.embedding ≠ none := by
  have h1 : getById (updateStatusDb st.db rid .pending none none false) rid =
      some (applyUpdateStatus .pending none none false r) := by
    unfold updateStatusDb
    rw [getById_updateRecord_self st.db rid
      (applyUpdateStatus .pending none none false) (fun k => rfl), hfound]
    rfl
  obtain ⟨ok, st2, r2, hrun, hget, _hid, _himg, _hmap, _hfr, hdisj, hsuccImp, _⟩ :=
    processRecord_spec env
      { st with db := updateStatusDb st.db rid .pending none none false } rid
      (applyUpdateStatus .pending none none false r) h1
  have hok : ok = true := hsuccImp hsucc
  subst hok
  rcases hdisj with ⟨-, hst, herr, -, hcomm2, hemb⟩ | ⟨hfalse, -, -⟩
  · refine ⟨st2, r2, ?_, hget, hst, hcomm2.trans hcomm, herr, hemb⟩
    simp only [retryRecord, hfound, if_pos hfailed]
    rw [hrun]
  · cases hfalse

/-- Witness for C10: the concrete failed record (stale comment
`"Failed at step: generating embedding"`), retried in a fully succeeding
environment. -/
theorem retry_keeps_stale_comment_witness :
    ∃ st2 r2,
      retryRecord happyEnv ⟨[failedURecord], 1, ⟨[]⟩, 0, 0⟩ 0 =
        .ok (true, st2) ∧
      getById st2.db 0 = some r2 ∧ r2.status = .completed ∧
      r2.comments = some "Failed at step: generating embedding" ∧
      r2.last_error = none ∧ r2.embedding ≠ none :=
  retry_keeps_stale_comment happyEnv ⟨[failedURecord], 1, ⟨[]⟩, 0, 0⟩ 0
    failedURecord "Failed at step: generating embedding" rfl rfl rfl
    ⟨pngBytes, rfl, rfl, fun _ => ⟨sampleExtraction, [1], rfl, rfl⟩⟩

/-! ### C5: batch folder ingestion with one invalid source -/

theorem idsFrom_length (start n : Nat) : (idsFrom start n).length = n := by
  induction n generalizing start with
  | zero => rfl
  | succ m ih =>
    simp only [idsFrom, List.length_cons, ih]

theorem mem_idsFrom {id start n : Nat} :
    id ∈ idsFrom start n ↔ start ≤ id ∧ id < start + n := by
  induction n generalizing start with
  | zero =>
    simp only [idsFrom, List.not_mem_nil, false_iff]
    omega
  | succ m ih =>
    simp only [idsFrom, List.mem_cons, ih]
    omega

theorem idsFrom_nodup (start n : Nat) : (idsFrom start n).Nodup := by
  induction n generalizing start with
  | zero => exact List.nodup_nil
  | succ m ih =>
    rw [idsFrom, List.nodup_cons]
    refine ⟨?_, ih (start + 1)⟩
    rw [mem_idsFrom]
    omega

theorem getById_none_of_bound (db : List Knowledge) (n0 id : Nat)
    (h : ∀ r ∈ db, r.id < n0) (hge : n0 ≤ id) : getById db id = none := by
  induction db with
  | nil => rfl
  | cons r rs ih =>
    unfold getById at ih ⊢
    rw [find?_cons_neg (fun k => k.id == id) r _
      (by have := h r (List.mem_cons_self _ _); simp; omega)]
    exact ih (fun k hk => h k (List.mem_cons_of_mem _ hk))

theorem getByImage_append_singleton_none (db : List Knowledge) (r : Knowledge)
    (img : String) (hdb : getByImage db img = none) (hne : r.image ≠ img) :
    getByImage (db ++ [r]) img = none := by
  unfold getByImage at hdb ⊢
  rw [List.find?_append, hdb, Option.none_or,
    find?_cons_neg (fun k => k.image == img) r _ (by simp [hne])]
  rfl

theorem find?_folderRecords :
    ∀ (files : List String) (n0 i : Nat) (hi : i < files.length),
      (folderRecords files n0).find? (fun k => k.id == n0 + i) =
        some (newKnowledge (n0 + i) (files.get ⟨i, hi⟩) "" "") := by
  intro files
  induction files with
  | nil =>
    intro n0 i hi
    exact absurd hi (by simp)
  | cons f fs ih =>
    intro n0 i hi
    cases i with
    | zero =>
      simp only [folderRecords]
      rw [find?_cons_pos (fun (k : Knowledge) => k.id == n0 + 0) _ _
        (by simp [newKnowledge])]
      simp [newKnowledge]
    | succ j =>
      simp only [folderRecords]
      rw [find?_cons_neg (fun (k : Knowledge) => k.id == n0 + (j + 1)) _ _
        (by simp [newKnowledge])]
      have hj : j < fs.length := by
        simpa using Nat.lt_of_succ_lt_succ hi
      have harith : n0 + (j + 1) = (n0 + 1) + j := by omega
      rw [harith]
      rw [ih (n0 + 1) j hj]
      rfl

theorem prepareFolderJobs_all_new :
    ∀ (files : List String) (st : OrchestratorState),
      (∀ f ∈ files, hasImageExtension f = true) →
      (∀ f ∈ files, getByImage st.db f = none) →
      files.Nodup →
      prepareFolderJobs st files =
        (idsFrom st.nextId files.length,
          { st with
              db := st.db ++ folderRecords files st.nextId,
              nextId := st.nextId + files.length }) := by
  intro files
  induction files with
  | nil =>
    intro st _ _ _
    simp only [prepareFolderJobs, List.length_nil, idsFrom, folderRecords,
      List.append_nil, Nat.add_zero]
  | cons f fs ih =>
    intro st hext hfresh hnodup
    rw [List.nodup_cons] at hnodup
    simp only [prepareFolderJobs]
    rw [if_pos (hext f (List.mem_cons_self _ _)),
      hfresh f (List.mem_cons_self _ _)]
    have hfresh2 : ∀ g ∈ fs,
        getByImage (st.db ++ [newKnowledge st.nextId f "" ""]) g = none := by
      intro g hg
      exact getByImage_append_singleton_none st.db _ g
        (hfresh g (List.mem_cons_of_mem _ hg))
        (by
          intro heq
          exact hnodup.1 ((show (newKnowledge st.nextId f "" "").image = f
            from rfl) ▸ heq ▸ hg))
    rw [ih { st with db := st.db ++ [newKnowledge st.nextId f "" ""], nextId := st.nextId + 1 } (fun g hg => hext g (List.mem_cons_of_mem _ hg)) hfresh2 hnodup.2]
    simp only [List.length_cons, idsFrom, folderRecords]
    refine congrArg₂ Prod.mk rfl ?_
    rw [show ((st.db ++ [newKnowledge st.nextId f "" ""]) ++
        folderRecords fs (st.nextId + 1)) = (st.db ++
        (newKnowledge st.nextId f "" "" :: folderRecords fs (st.nextId + 1)))
        from by rw [List.append_assoc]; rfl,
      show st.nextId + 1 + fs.length = st.nextId + (fs.length + 1) from by omega]

theorem processRecord_db_shape (env : PipelineEnv) (st : OrchestratorState)
    (rid : Nat) :
    ∃ g, (processRecord env st rid).2.db =
        updateRecord (updateStatusDb st.db rid .processing none none false)
          rid g ∧
      ∀ k, (g k).id = k.id := by
  simp only [processRecord]
  cases h0 : getById (updateStatusDb st.db rid .processing none none false)
      rid with
  | none =>
    simp only [h0]
    exact ⟨_, rfl, fun k => rfl⟩
  | some record =>
    simp only [h0]
    cases hfetch : fetchImage env record.image with
    | error e =>
      simp only [hfetch]
      exact ⟨_, rfl, fun k => rfl⟩
    | ok bytes =>
      simp only [hfetch]
      cases hval : validateImage bytes with
      | error e =>
        simp only [hval]
        exact ⟨_, rfl, fun k => rfl⟩
      | ok u =>
        cases u
        simp only [hval]
        cases hext : env.extract bytes st.tags with
        | error e =>
          simp only [hext]
          exact ⟨_, rfl, fun k => rfl⟩
        | ok extraction =>
          simp only [hext]
          by_cases hnew : (extraction.is_new_category ||
              extraction.is_new_subcategory || extraction.is_new_topic) = true
          · simp only [hnew, if_true]
            cases hemb : env.embed extraction.raw_data with
            | error e =>
              simp only [hemb]
              exact ⟨_, rfl, fun k => rfl⟩
            | ok emb =>
              simp only [hemb]
              exact ⟨_, rfl, fun k => rfl⟩
          · simp only [hnew, if_false]
            cases hemb : env.embed extraction.raw_data with
            | error e =>
              simp only [hemb]
              exact ⟨_, rfl, fun k => rfl⟩
            | ok emb =>
              simp only [hemb]
              exact ⟨_, rfl, fun k => rfl⟩

theorem processRecord_frame_ne (env : PipelineEnv) (st : OrchestratorState)
    (rid rid2 : Nat) (hne : rid2 ≠ rid) :
    getById (processRecord env st rid).2.db rid2 = getById st.db rid2 := by
  obtain ⟨g, hdb, hg⟩ := processRecord_db_shape env st rid
  rw [hdb, getById_updateRecord_ne _ _ _ hg _ hne]
  unfold updateStatusDb
  rw [getById_updateRecord_ne st.db rid
    (applyUpdateStatus .processing none none false) (fun k => rfl) _ hne]

theorem processAll_frame (env : PipelineEnv) :
    ∀ (ids : List Nat) (st : OrchestratorState) (id : Nat), id ∉ ids →
      getById (processAll env st ids).db id = getById st.db id := by
  intro ids
  induction ids with
  | nil =>
    intro st id _
    rfl
  | cons id0 rest ih =>
    intro st id hid
    have h1 : id ∉ rest := fun h => hid (List.mem_cons_of_mem _ h)
    have h2 : id ≠ id0 := fun h => hid (h ▸ List.mem_cons_self _ _)
    have hstep : processAll env st (id0 :: rest) =
        processAll env (processRecord env st id0).2 rest := rfl
    rw [hstep, ih _ _ h1, processRecord_frame_ne env st id0 id h2]

theorem processAll_statuses (env : PipelineEnv) :
    ∀ (ids : List Nat) (st : OrchestratorState), ids.Nodup →
      (∀ id ∈ ids, ∃ r, getById st.db id = some r) →
      ∀ id ∈ ids, ∃ r r2, getById st.db id = some r ∧
        getById (processAll env st ids).db id = some r2 ∧
        r2.image = r.image ∧
        (PipelineSucceedsOn env r.image → r2.status = .completed) ∧
        (FailsValidationOn env r.image → r2.status = .failed) := by
  intro ids
  induction ids with
  | nil =>
    intro st _ _ id hid
    cases hid
  | cons id0 rest ih =>
    intro st hnodup hex id hid
    rw [List.nodup_cons] at hnodup
    obtain ⟨r0, hr0⟩ := hex id0 (List.mem_cons_self _ _)
    obtain ⟨ok, st2, r2, hrun, hget2, _hid2, himg2, _hmap2, hframe2, hdisj,
      hsuccImp, hfailImp⟩ := processRecord_spec env st id0 r0 hr0
    have hpa : processAll env st (id0 :: rest) = processAll env st2 rest := by
      show processAll env (processRecord env st id0).2 rest = _
      rw [hrun]
    rcases List.mem_cons.mp hid with rfl | hmem
    · refine ⟨r0, r2, hr0, ?_, himg2, ?_, ?_⟩
      · rw [hpa, processAll_frame env rest st2 id hnodup.1]
        exact hget2
      · intro hs
        have hok := hsuccImp hs
        rcases hdisj with ⟨-, hst, -⟩ | ⟨hff, -, -⟩
        · exact hst
        · rw [hok] at hff
          cases hff
      · intro hs
        have hok := hfailImp hs
        rcases hdisj with ⟨htt, -, -⟩ | ⟨-, hst, -⟩
        · rw [hok] at htt
          cases htt
        · exact hst
    · have hexrest : ∀ jd ∈ rest, ∃ r, getById st2.db jd = some r := by
        intro jd hjd
        obtain ⟨r, hr⟩ := hex jd (List.mem_cons_of_mem _ hjd)
        refine ⟨r, ?_⟩
        rw [hframe2 jd (fun h => hnodup.1 (h ▸ hjd))]
        exact hr
      obtain ⟨r, r2x, hra, hrb, hrc, hrd, hre⟩ := ih st2 hnodup.2 hexrest id hmem
      refine ⟨r, r2x, ?_, ?_, hrc, hrd, hre⟩
      · rw [← hframe2 id (fun h => hnodup.1 (h ▸ hmem))]
        exact hra
      · rw [hpa]
        exact hrb

/-- C5: batch ingestion of N distinct new sources where exactly one source
fails image validation and every other source's pipeline succeeds returns N
job ids (one per source, in folder order); the failing source's record ends
`FAILED`, every other record ends `COMPLETED`, and the sources after the
failing one are still processed (continue-on-error). -/
theorem batch_continue_on_error (env : PipelineEnv) (st : OrchestratorState)
    (files : List String) (bad : String)
    (hwf : ∀ r ∈ st.db, r.id < st.nextId)
    (hext : ∀ f ∈ files, hasImageExtension f = true)
    (hfresh : ∀ f ∈ files, getByImage st.db f = none)
    (hfnodup : files.Nodup)
    (hbadfails : FailsValidationOn env bad)
    (hothers : ∀ f ∈ files, f ≠ bad → PipelineSucceedsOn env f) :
    ∃ stF, ingestFromLocalFolder env st files =
        (idsFrom st.nextId files.length, stF) ∧
      (idsFrom st.nextId files.length).length = files.length ∧
      ∀ (i : Nat) (hi : i < files.length), ∃ r,
        getById stF.db (st.nextId + i) = some r ∧
        r.image = files.get ⟨i, hi⟩ ∧
        r.status = (if files.get ⟨i, hi⟩ = bad then KnowledgeStatus.failed
          else KnowledgeStatus.completed) := by
  have hprep := prepareFolderJobs_all_new files st hext hfresh hfnodup
  have hrun : ingestFromLocalFolder env st files =
      (idsFrom st.nextId files.length,
        processAll env
          { st with
              db := st.db ++ folderRecords files st.nextId,
              nextId := st.nextId + files.length }
          (idsFrom st.nextId files.length)) := by
    unfold ingestFromLocalFolder
    rw [hprep]
  refine ⟨_, hrun, idsFrom_length _ _, ?_⟩
  intro i hi
  have hfind : getById (st.db ++ folderRecords files st.nextId)
      (st.nextId + i) =
      some (newKnowledge (st.nextId + i) (files.get ⟨i, hi⟩) "" "") := by
    have h0 : getById st.db (st.nextId + i) = none :=
      getById_none_of_bound st.db st.nextId (st.nextId + i) hwf (by omega)
    unfold getById at h0 ⊢
    rw [List.find?_append, h0, Option.none_or]
    exact find?_folderRecords files st.nextId i hi
  have hexists : ∀ id ∈ idsFrom st.nextId files.length, ∃ r,
      getById (st.db ++ folderRecords files st.nextId) id = some r := by
    intro id hmem
    rw [mem_idsFrom] at hmem
    have hj : id - st.nextId < files.length := by omega
    have hid : id = st.nextId + (id - st.nextId) := by omega
    refine ⟨newKnowledge id (files.get ⟨id - st.nextId, hj⟩) "" "", ?_⟩
    calc getById (st.db ++ folderRecords files st.nextId) id
        = getById (st.db ++ folderRecords files st.nextId)
            (st.nextId + (id - st.nextId)) := by rw [← hid]
      _ = some (newKnowledge (st.nextId + (id - st.nextId))
            (files.get ⟨id - st.nextId, hj⟩) "" "") := by
            have h0 : getById st.db (st.nextId + (id - st.nextId)) = none :=
              getById_none_of_bound st.db st.nextId _ hwf (by omega)
            unfold getById at h0 ⊢
            rw [List.find?_append, h0, Option.none_or]
            exact find?_folderRecords files st.nextId _ hj
      _ = some (newKnowledge id (files.get ⟨id - st.nextId, hj⟩) "" "") := by
            rw [← hid]
  have hmem : st.nextId + i ∈ idsFrom st.nextId files.length := by
    rw [mem_idsFrom]
    omega
  obtain ⟨r, r2, hra, hrb, hrc, hrd, hre⟩ :=
    processAll_statuses env (idsFrom st.nextId files.length)
      { st with
          db := st.db ++ folderRecords files st.nextId,
          nextId := st.nextId + files.length }
      (idsFrom_nodup _ _) hexists (st.nextId + i) hmem
  have hr : r = newKnowledge (st.nextId + i) (files.get ⟨i, hi⟩) "" "" := by
    have : some r =
        some (newKnowledge (st.nextId + i) (files.get ⟨i, hi⟩) "" "") := by
      rw [← hra]
      exact hfind
    exact Option.some.inj this
  subst hr
  refine ⟨r2, hrb, ?_, ?_⟩
  · rw [hrc]
    rfl
  · by_cases hbad : files.get ⟨i, hi⟩ = bad
    · rw [if_pos hbad]
      apply hre
      show FailsValidationOn env (newKnowledge _ _ _ _).image
      rw [show (newKnowledge (st.nextId + i) (files.get ⟨i, hi⟩) "" "").image =
        files.get ⟨i, hi⟩ from rfl, hbad]
      exact hbadfails
    · rw [if_neg hbad]
      apply hrd
      show PipelineSucceedsOn env (newKnowledge _ _ _ _).image
      rw [show (newKnowledge (st.nextId + i) (files.get ⟨i, hi⟩) "" "").image =
        files.get ⟨i, hi⟩ from rfl]
      exact hothers (files.get ⟨i, hi⟩) (files.get_mem _ _) hbad

/-- Concrete instance of `batch_continue_on_error`: three new local files
of which exactly `"b.png"` fails image validation under `envC5`. -/
theorem batch_continue_on_error_witness :
    ∃ stF, ingestFromLocalFolder envC5 stC5 filesC5 =
        (idsFrom stC5.nextId filesC5.length, stF) ∧
      (idsFrom stC5.nextId filesC5.length).length = filesC5.length ∧
      ∀ (i : Nat) (hi : i < filesC5.length), ∃ r,
        getById stF.db (stC5.nextId + i) = some r ∧
        r.image = filesC5.get ⟨i, hi⟩ ∧
        r.status = (if filesC5.get ⟨i, hi⟩ = "b.png" then KnowledgeStatus.failed
          else KnowledgeStatus.completed) :=
  batch_continue_on_error envC5 stC5 filesC5 "b.png"
    (fun r hr => absurd hr (List.not_mem_nil r))
    (by decide)
    (fun _ _ => rfl)
    (by decide)
    ⟨[1, 2, 3, 4, 5, 6, 7, 8], rfl, "Unknown image format", rfl⟩
    (by
      intro f hf hne
      have hf3 : f = "a.png" ∨ f = "b.png" ∨ f = "c.png" := by
        simpa [filesC5] using hf
      rcases hf3 with rfl | rfl | rfl
      · exact ⟨pngBytes, rfl, rfl, fun _ => ⟨sampleExtraction, [1], rfl, rfl⟩⟩
      · exact absurd rfl hne
      · exact ⟨pngBytes, rfl, rfl, fun _ => ⟨sampleExtraction, [1], rfl, rfl⟩⟩)

end Sherlock
